import Mathlib

/-!
TravelBuddy: the connection-request handlers of `server.js`.

A shallow embedding of the two request handlers of `src/server.js`
(`POST /api/send-request`, lines 227-267, and `POST /api/respond-request`,
lines 284-316) over the `users` collection, and of the Aadhaar checksum
`verhoeffCheck` (lines 76-106) used by signup.

Modelling decisions:

* The `users` collection is a list of documents in natural order.  `findOne`
  returns the first document matching the filter and `updateOne` rewrites the
  first document matching the filter, as the MongoDB driver does.
* A document keeps the fields the two handlers read or write: `email`,
  `firstName`, `requests`, `sentRequests`, `connections`.  A missing array
  field behaves like the empty array in both handlers (`toUser.requests || []`,
  `$push` and `$addToSet` create the array, an array filter does not match),
  so the arrays are plain lists.
* Body fields are strings; the empty string is the falsy value tested by
  `!fromEmail`.
* `new Date().toISOString()` is an input (`now`) of the send handler.
* The socket emission of line 260 does not touch the collection and is left out.
-/

namespace TravelBuddy

/-- The object pushed onto `requests` (server.js:243-248). -/
structure IncomingRequest where
  fromEmail : String
  fromName : String
  status : String
  createdAt : String
deriving DecidableEq, Repr

/-- The object pushed onto `sentRequests` (server.js:257). -/
structure SentRequest where
  toEmail : String
  status : String
deriving DecidableEq, Repr

/-- A document of the `users` collection, restricted to the fields the request handlers use. -/
structure User where
  email : String
  firstName : String
  requests : List IncomingRequest
  sentRequests : List SentRequest
  connections : List String
deriving DecidableEq, Repr

/-- The `users` collection. -/
abbrev Store := List User

/-- The JSON answer of a handler: `success` and the optional `message`. -/
structure Response where
  success : Bool
  message : Option String
deriving DecidableEq, Repr

/-- `usersCollection.findOne({ email })`: the first document with that email. -/
def findOne (s : Store) (email : String) : Option User :=
  s.find? (fun u => u.email == email)

/-- `usersCollection.updateOne(filter, update)`: the first document matching the filter is
rewritten, every other document is left alone. -/
def updateOne (filter : User → Bool) (update : User → User) : Store → Store
  | [] => []
  | u :: rest => if filter u then update u :: rest else u :: updateOne filter update rest

/-- `{ $push: { requests: requestObj } }`. -/
def pushRequest (requestObj : IncomingRequest) (u : User) : User :=
  { u with requests := u.requests ++ [requestObj] }

/-- `{ $push: { sentRequests: obj } }`. -/
def pushSentRequest (obj : SentRequest) (u : User) : User :=
  { u with sentRequests := u.sentRequests ++ [obj] }

/-- The positional update `requests.$.status` for the filter `"requests.fromEmail": fromEmail`:
the first array element whose `fromEmail` matches gets the new status. -/
def setRequestStatus (fromEmail action : String) : List IncomingRequest → List IncomingRequest
  | [] => []
  | r :: rest =>
    if r.fromEmail == fromEmail then { r with status := action } :: rest
    else r :: setRequestStatus fromEmail action rest

/-- The positional update `sentRequests.$.status` for the filter `"sentRequests.toEmail": toEmail`. -/
def setSentStatus (toEmail action : String) : List SentRequest → List SentRequest
  | [] => []
  | r :: rest =>
    if r.toEmail == toEmail then { r with status := action } :: rest
    else r :: setSentStatus toEmail action rest

/-- `{ $set: { "requests.$.status": action } }`. -/
def setRequests (fromEmail action : String) (u : User) : User :=
  { u with requests := setRequestStatus fromEmail action u.requests }

/-- `{ $set: { "sentRequests.$.status": action } }`. -/
def setSentRequests (toEmail action : String) (u : User) : User :=
  { u with sentRequests := setSentStatus toEmail action u.sentRequests }

/-- `{ $addToSet: { connections: x } }`: appended unless already present. -/
def addToSet (x : String) (u : User) : User :=
  { u with connections := if x ∈ u.connections then u.connections else u.connections ++ [x] }

/-- `POST /api/send-request` (server.js:227-267). -/
def sendRequest (s : Store) (fromEmail toEmail now : String) : Response × Store :=
  if fromEmail == "" || toEmail == "" then (⟨false, some "Missing fields"⟩, s)
  else
    match findOne s fromEmail, findOne s toEmail with
    | some fromUser, some toUser =>
      let pending := toUser.requests.any
        (fun r => r.fromEmail == fromEmail && r.status == "pending")
      if pending then (⟨false, some "Already sent"⟩, s)
      else
        let requestObj : IncomingRequest :=
          { fromEmail := fromEmail, fromName := fromUser.firstName,
            status := "pending", createdAt := now }
        let s1 := updateOne (fun u => u.email == toEmail) (pushRequest requestObj) s
        let s2 := updateOne (fun u => u.email == fromEmail)
          (pushSentRequest { toEmail := toEmail, status := "pending" }) s1
        (⟨true, none⟩, s2)
    | _, _ => (⟨false, some "User(s) not found"⟩, s)

/-- `POST /api/respond-request` (server.js:284-316). -/
def respondRequest (s : Store) (toEmail fromEmail action : String) : Response × Store :=
  if action != "accept" && action != "reject" then (⟨false, none⟩, s)
  else
    let s1 := updateOne
      (fun u => u.email == toEmail && u.requests.any (fun r => r.fromEmail == fromEmail))
      (setRequests fromEmail action) s
    let s2 := updateOne
      (fun u => u.email == fromEmail && u.sentRequests.any (fun r => r.toEmail == toEmail))
      (setSentRequests toEmail action) s1
    let s3 :=
      if action == "accept" then
        updateOne (fun u => u.email == fromEmail) (addToSet toEmail)
          (updateOne (fun u => u.email == toEmail) (addToSet fromEmail) s2)
      else s2
    (⟨true, none⟩, s3)

/-- `GET /api/requests` (server.js:269-282): both lists of the user, when the user exists. -/
def getRequests (s : Store) (email : String) :
    Option (List IncomingRequest × List SentRequest) :=
  (findOne s email).map (fun u => (u.requests, u.sentRequests))

/-- One call of a request handler. -/
inductive Call where
  | send (fromEmail toEmail now : String)
  | respond (toEmail fromEmail action : String)
deriving DecidableEq, Repr

/-- The store after one call. -/
def step (s : Store) : Call → Store
  | .send f t now => (sendRequest s f t now).2
  | .respond t f a => (respondRequest s t f a).2

/-- The store after a finite sequence of calls. -/
def run (s : Store) (cs : List Call) : Store :=
  cs.foldl step s

/-- A freshly signed-up user (server.js:125-147): empty lists. -/
def newUser (email firstName : String) : User :=
  { email := email, firstName := firstName, requests := [], sentRequests := [], connections := [] }

/-- The user document names `e`: in a request list or in the connection set. -/
def namesOther (u : User) (e : String) : Bool :=
  u.requests.any (fun r => r.fromEmail == e) || u.sentRequests.any (fun r => r.toEmail == e)
    || u.connections.contains e

/-- The store written by a successful send (server.js:250-258). -/
def sendWrites (s : Store) (fromEmail toEmail now fromName : String) : Store :=
  updateOne (fun u => u.email == fromEmail)
    (pushSentRequest { toEmail := toEmail, status := "pending" })
    (updateOne (fun u => u.email == toEmail)
      (pushRequest { fromEmail := fromEmail, fromName := fromName,
                     status := "pending", createdAt := now }) s)

/-- The store written by a respond call with a valid action (server.js:290-309). -/
def respondWrites (s : Store) (toEmail fromEmail action : String) : Store :=
  let s2 := updateOne
    (fun u => u.email == fromEmail && u.sentRequests.any (fun r => r.toEmail == toEmail))
    (setSentRequests toEmail action)
    (updateOne
      (fun u => u.email == toEmail && u.requests.any (fun r => r.fromEmail == fromEmail))
      (setRequests fromEmail action) s)
  if action == "accept" then
    updateOne (fun u => u.email == fromEmail) (addToSet toEmail)
      (updateOne (fun u => u.email == toEmail) (addToSet fromEmail) s2)
  else s2

/-- What the four writes of a respond call do to one user document. -/
def respondDoc (toEmail fromEmail action : String) (u : User) : User :=
  let u1 := if u.email == toEmail && u.requests.any (fun r => r.fromEmail == fromEmail)
    then setRequests fromEmail action u else u
  let u2 := if u1.email == fromEmail && u1.sentRequests.any (fun r => r.toEmail == toEmail)
    then setSentRequests toEmail action u1 else u1
  if action == "accept" then
    let u3 := if u2.email == toEmail then addToSet fromEmail u2 else u2
    if u3.email == fromEmail then addToSet toEmail u3 else u3
  else u2

/-- What the two writes of a successful send do to one user document. -/
def sendDoc (fromEmail toEmail now fromName : String) (u : User) : User :=
  let u1 := if u.email == toEmail then
    pushRequest { fromEmail := fromEmail, fromName := fromName,
                  status := "pending", createdAt := now } u
    else u
  if u1.email == fromEmail then pushSentRequest { toEmail := toEmail, status := "pending" } u1
  else u1

/-- A position of a request record in the collection: the index of the document and the index
in its `requests` (incoming) or `sentRequests` (outgoing) array. -/
inductive Slot where
  | incoming (doc idx : Nat)
  | outgoing (doc idx : Nat)
deriving DecidableEq, Repr

/-- The counterparty and the status of the record stored at a slot, when there is one. -/
def recordAt (s : Store) : Slot → Option (String × String)
  | .incoming i j =>
    (s[i]?).bind (fun u => (u.requests[j]?).map (fun r => (r.fromEmail, r.status)))
  | .outgoing i j =>
    (s[i]?).bind (fun u => (u.sentRequests[j]?).map (fun r => (r.toEmail, r.status)))

/-- Every record of `u` is still at its index in `u2`, with the same counterparty, and is not
`pending` there unless it was `pending` in `u`. -/
def DocKeeps (u u2 : User) : Prop :=
  (∀ (j : Nat) (r : IncomingRequest), u.requests[j]? = some r →
    ∃ r2 : IncomingRequest, u2.requests[j]? = some r2 ∧ r2.fromEmail = r.fromEmail ∧
      (r.status ≠ "pending" → r2.status ≠ "pending")) ∧
  (∀ (j : Nat) (r : SentRequest), u.sentRequests[j]? = some r →
    ∃ r2 : SentRequest, u2.sentRequests[j]? = some r2 ∧ r2.toEmail = r.toEmail ∧
      (r.status ≠ "pending" → r2.status ≠ "pending"))

/-- Every document of `s` is still at its index in `s2`, keeping its records as in `DocKeeps`. -/
def StoreKeeps (s s2 : Store) : Prop :=
  ∀ (i : Nat) (u : User), s[i]? = some u → ∃ u2 : User, s2[i]? = some u2 ∧ DocKeeps u u2

/-- The `requests` array of the user found under `e` (empty when no user is found). -/
def reqsOf (s : Store) (e : String) : List IncomingRequest :=
  match findOne s e with
  | some u => u.requests
  | none => []

/-- The `sentRequests` array of the user found under `e` (empty when no user is found). -/
def sentOf (s : Store) (e : String) : List SentRequest :=
  match findOne s e with
  | some u => u.sentRequests
  | none => []

/-- The statuses, in array order, of the incoming records from `a` held by user `b`. -/
def incomingStatuses (s : Store) (b a : String) : List String :=
  ((reqsOf s b).filter (fun r => r.fromEmail == a)).map (fun r => r.status)

/-- The statuses, in array order, of the outgoing records to `b` held by user `a`. -/
def outgoingStatuses (s : Store) (a b : String) : List String :=
  ((sentOf s a).filter (fun r => r.toEmail == b)).map (fun r => r.status)

/-- Replace the head of a list of statuses. -/
def setHead (act : String) : List String → List String
  | [] => []
  | _ :: t => act :: t

/-- A document behind an earlier document with the same email is never read nor written by the
handlers; here it holds no request record. -/
def ShadowEmpty (u v : User) : Prop :=
  v.email = u.email → v.requests = [] ∧ v.sentRequests = []

/-- The invariant behind "at most one pending request per ordered pair": shadowed documents hold
no records, the two sides of every ordered pair carry the same statuses in the same order, and
at most one of them is `pending`. -/
def PendingInv (s : Store) : Prop :=
  s.Pairwise ShadowEmpty ∧
  ∀ a b : String, outgoingStatuses s a b = incomingStatuses s b a ∧
    (incomingStatuses s b a).count "pending" ≤ 1

/-- The call is a respond-request with action `accept`. -/
def isAccept : Call → Bool
  | .respond _ _ action => action == "accept"
  | .send _ _ _ => false

/-- Alice after a send from alice to bob, a reject by bob and a second send: an answered
outgoing record followed by a `pending` one. -/
def resentAlice : User :=
  { email := "alice@x.com", firstName := "Alice", requests := [],
    sentRequests := [{ toEmail := "bob@x.com", status := "reject" },
                     { toEmail := "bob@x.com", status := "pending" }],
    connections := [] }

/-- Bob after the same three calls: an answered incoming record followed by a `pending` one. -/
def resentBob : User :=
  { email := "bob@x.com", firstName := "Bob",
    requests := [{ fromEmail := "alice@x.com", fromName := "Alice", status := "reject",
                   createdAt := "t0" },
                 { fromEmail := "alice@x.com", fromName := "Alice", status := "pending",
                   createdAt := "t2" }],
    sentRequests := [], connections := [] }

/-- The collection of the two. -/
def resentStore : Store := [resentAlice, resentBob]

/-- The document index of a slot. -/
def slotDoc : Slot → Nat
  | .incoming i _ => i
  | .outgoing i _ => i

/-- The counterparty and the status of the record a document holds at the array index of a
slot. -/
def docRecord (u : User) : Slot → Option (String × String)
  | .incoming _ j => (u.requests[j]?).map (fun r => (r.fromEmail, r.status))
  | .outgoing _ j => (u.sentRequests[j]?).map (fun r => (r.toEmail, r.status))

/-- The email of the document that holds a slot. -/
def ownerAt (s : Store) (k : Slot) : Option String :=
  (s[slotDoc k]?).map User.email

/-- The call is a respond-request for the ordered pair of a record: for an incoming record of
`owner` from `e`, `toEmail = owner` and `fromEmail = e`; for an outgoing record of `owner` to
`e`, `fromEmail = owner` and `toEmail = e`. -/
def answers (owner e : String) : Slot → Call → Bool
  | .incoming _ _, .respond t f _ => t == owner && f == e
  | .outgoing _ _, .respond t f _ => f == owner && t == e
  | _, .send _ _ _ => false

/-! ### The Aadhaar checksum -/

/-- The table `d` of `verhoeffCheck` (server.js:77-88). -/
def verhoeffCheck.d : List (List Nat) :=
  [[0,1,2,3,4,5,6,7,8,9],
   [1,2,3,4,0,6,7,8,9,5],
   [2,3,4,0,1,7,8,9,5,6],
   [3,4,0,1,2,8,9,5,6,7],
   [4,0,1,2,3,9,5,6,7,8],
   [5,9,8,7,6,0,4,3,2,1],
   [6,5,9,8,7,1,0,4,3,2],
   [7,6,5,9,8,2,1,0,4,3],
   [8,7,6,5,9,3,2,1,0,4],
   [9,8,7,6,5,4,3,2,1,0]]

/-- The table `p` of `verhoeffCheck` (server.js:90-99). -/
def verhoeffCheck.p : List (List Nat) :=
  [[0,1,2,3,4,5,6,7,8,9],
   [1,5,7,6,2,8,3,0,9,4],
   [5,8,0,3,7,9,6,1,4,2],
   [8,9,1,6,0,4,3,5,2,7],
   [9,4,5,3,1,2,6,8,7,0],
   [4,2,8,6,5,7,3,9,0,1],
   [2,7,9,3,8,0,6,4,1,5],
   [7,0,4,6,9,1,3,2,5,8]]

/-- `parseInt(num, 10)` on a string of one code unit: the value of a decimal digit, `none`
(for `NaN`) on anything else. -/
def parseInt (num : Char) : Option Nat :=
  if num.isDigit then some (num.toNat - 48) else none

/-- `aadhaar.split('')`: the UTF-16 code units of the string.  A character outside the basic
plane gives two surrogate units, neither of them a digit; they are stood for by two copies of
a non-digit character. -/
def split (aadhaar : String) : List Char :=
  aadhaar.toList.flatMap
    (fun ch => if ch.toNat < 65536 then [ch] else [Char.ofNat 65533, Char.ofNat 65533])

/-- One run of the `forEach` callback, `c = d[c][p[i % 8][parseInt(num, 10)]]`.  The
accumulator is `none` when `c` is `undefined`; the result is `none` when the callback throws
(`d[c]` is `undefined` and gets indexed). -/
def verhoeffCheck.step (c : Option Nat) (i : Nat) (num : Char) : Option (Option Nat) :=
  match c with
  | none => none
  | some c =>
    match verhoeffCheck.d[c]? with
    | none => none
    | some row =>
      some (((parseInt num).bind
        (fun n => (verhoeffCheck.p[i % 8]?).bind (fun prow => prow[n]?))).bind
          (fun x => row[x]?))

/-- The `forEach` over the reversed code units, from index `i` on. -/
def verhoeffCheck.loop : List Char → Nat → Option Nat → Option (Option Nat)
  | [], _, c => some c
  | num :: rest, i, c =>
    (verhoeffCheck.step c i num).bind (fun c2 => verhoeffCheck.loop rest (i + 1) c2)

/-- `verhoeffCheck(aadhaar)` (server.js:76-106): `c === 0` after the loop; `none` when the
loop throws. -/
def verhoeffCheck (aadhaar : String) : Option Bool :=
  (verhoeffCheck.loop (split aadhaar).reverse 0 (some 0)).map (fun c => c == some 0)

/-- The format test of signup, `/^\d{12}$/.test(data.aadhaar)` (server.js:115). -/
def isAadhaarFormat (aadhaar : String) : Bool :=
  aadhaar.toList.length == 12 && aadhaar.toList.all Char.isDigit

/-- The entry of `d` at row `c`, column `x` (0 outside the table). -/
def dAt (c x : Nat) : Nat := ((verhoeffCheck.d[c]?).bind (fun row => row[x]?)).getD 0

/-- The entry of `p` at row `k`, column `n` (0 outside the table). -/
def pAt (k n : Nat) : Nat := ((verhoeffCheck.p[k]?).bind (fun row => row[n]?)).getD 0

/-- The callback on digit values. -/
def stepNat (c i n : Nat) : Nat := dAt c (pAt (i % 8) n)

/-- The loop on digit values. -/
def loopNat : List Nat → Nat → Nat → Nat
  | [], _, c => c
  | n :: rest, i, c => loopNat rest (i + 1) (stepNat c i n)

/-- The value of a digit character. -/
def digitVal (ch : Char) : Nat := ch.toNat - 48

/-! ## Lemmas on the collection primitives -/

@[simp]
theorem pushRequest_email (r : IncomingRequest) (u : User) : (pushRequest r u).email = u.email := rfl

@[simp]
theorem pushSentRequest_email (r : SentRequest) (u : User) :
    (pushSentRequest r u).email = u.email := rfl

@[simp]
theorem setRequests_email (f a : String) (u : User) : (setRequests f a u).email = u.email := rfl

@[simp]
theorem setSentRequests_email (t a : String) (u : User) :
    (setSentRequests t a u).email = u.email := rfl

@[simp]
theorem addToSet_email (x : String) (u : User) : (addToSet x u).email = u.email := rfl

theorem findOne_email {s : Store} {e : String} {u : User} (h : findOne s e = some u) :
    u.email = e := by
  have := List.find?_some h
  simpa using this

theorem findOne_mem {s : Store} {e : String} {u : User} (h : findOne s e = some u) : u ∈ s :=
  List.mem_of_find?_eq_some h

/-- Reading a user after `updateOne` with a filter that fixes the email and an update that keeps
it: the first document with the email is the old one, rewritten when it matched the filter. -/
theorem findOne_updateOne (p : User → Bool) (f : User → User) (e0 : String)
    (hf : ∀ u, (f u).email = u.email) (hp : ∀ u, p u = true → u.email = e0)
    (s : Store) (e : String) :
    findOne (updateOne p f s) e = (findOne s e).map (fun u => if p u then f u else u) := by
  induction s with
  | nil => rfl
  | cons x t ih =>
    unfold findOne at ih ⊢
    by_cases hx : p x = true
    · by_cases hxe : x.email = e
      · simp [updateOne, hx, hxe, hf]
      · have hne : e0 ≠ e := fun h => hxe ((hp x hx).trans h)
        have h1 : ((f x).email == e) = false := by simp [hf, hxe]
        have h2 : (x.email == e) = false := by simp [hxe]
        simp only [updateOne, hx, if_true, List.find?_cons, h1, h2]
        cases hfind : List.find? (fun u => u.email == e) t with
        | none => rfl
        | some u =>
          have hu : u.email = e := by
            have := List.find?_some hfind
            simpa using this
          have hpu : ¬ p u = true := fun h => hne ((hp u h).symm.trans hu)
          simp [hpu]
    · by_cases hxe : x.email = e
      · simp [updateOne, hx, hxe]
      · have h2 : (x.email == e) = false := by simp [hxe]
        have hx' : p x = false := by simpa using hx
        simp only [updateOne, hx', Bool.false_eq_true, if_false, List.find?_cons, h2]
        exact ih

theorem updateOne_length (p : User → Bool) (f : User → User) (s : Store) :
    (updateOne p f s).length = s.length := by
  induction s with
  | nil => rfl
  | cons x t ih =>
    by_cases hx : p x = true <;> simp [updateOne, hx, ih]

/-! ## The send handler, case by case -/

theorem sendRequest_ok {s : Store} {a b now : String} {ua ub : User}
    (ha : a ≠ "") (hb : b ≠ "") (hua : findOne s a = some ua) (hub : findOne s b = some ub)
    (hp : ub.requests.any (fun r => r.fromEmail == a && r.status == "pending") = false) :
    sendRequest s a b now = (⟨true, none⟩, sendWrites s a b now ua.firstName) := by
  simp [sendRequest, ha, hb, hua, hub, hp, sendWrites]

theorem sendRequest_pending {s : Store} {a b now : String} {ua ub : User}
    (ha : a ≠ "") (hb : b ≠ "") (hua : findOne s a = some ua) (hub : findOne s b = some ub)
    (hp : ub.requests.any (fun r => r.fromEmail == a && r.status == "pending") = true) :
    sendRequest s a b now = (⟨false, some "Already sent"⟩, s) := by
  simp [sendRequest, ha, hb, hua, hub, hp]

/-- A send that reports success passed every check and performed both writes. -/
theorem sendRequest_success_inv {s : Store} {a b now : String}
    (h : (sendRequest s a b now).1.success = true) :
    ∃ ua ub, a ≠ "" ∧ b ≠ "" ∧ findOne s a = some ua ∧ findOne s b = some ub ∧
      ub.requests.any (fun r => r.fromEmail == a && r.status == "pending") = false ∧
      (sendRequest s a b now).2 = sendWrites s a b now ua.firstName := by
  by_cases ha : a = ""
  · simp [sendRequest, ha] at h
  by_cases hb : b = ""
  · simp [sendRequest, hb] at h
  cases hua : findOne s a with
  | none => simp [sendRequest, ha, hb, hua] at h
  | some ua =>
    cases hub : findOne s b with
    | none => simp [sendRequest, ha, hb, hua, hub] at h
    | some ub =>
      cases hp : ub.requests.any (fun r => r.fromEmail == a && r.status == "pending") with
      | true => rw [sendRequest_pending ha hb hua hub hp] at h; simp at h
      | false =>
        exact ⟨ua, ub, ha, hb, rfl, rfl, hp, by rw [sendRequest_ok ha hb hua hub hp]⟩

/-- A send that does not report success leaves the collection alone. -/
theorem sendRequest_failure_store {s : Store} {a b now : String}
    (h : (sendRequest s a b now).1.success = false) : (sendRequest s a b now).2 = s := by
  by_cases ha : a = ""
  · simp [sendRequest, ha]
  by_cases hb : b = ""
  · simp [sendRequest, hb]
  cases hua : findOne s a with
  | none => simp [sendRequest, ha, hb, hua]
  | some ua =>
    cases hub : findOne s b with
    | none => simp [sendRequest, ha, hb, hua, hub]
    | some ub =>
      cases hp : ub.requests.any (fun r => r.fromEmail == a && r.status == "pending") with
      | true => rw [sendRequest_pending ha hb hua hub hp]
      | false => rw [sendRequest_ok ha hb hua hub hp] at h; simp at h

/-- Reading a user after the two writes of a successful send. -/
theorem findOne_sendWrites (s : Store) (a b now n e : String) :
    findOne (sendWrites s a b now n) e = (findOne s e).map (sendDoc a b now n) := by
  unfold sendWrites
  rw [findOne_updateOne _ (pushSentRequest _) a (fun _ => rfl) (fun u hu => by simpa using hu),
    findOne_updateOne _ (pushRequest _) b (fun _ => rfl) (fun u hu => by simpa using hu)]
  cases findOne s e <;> simp [sendDoc]

/-! ## The respond handler, case by case -/

theorem respondRequest_valid {s : Store} {b a action : String}
    (h : action = "accept" ∨ action = "reject") :
    respondRequest s b a action = (⟨true, none⟩, respondWrites s b a action) := by
  rcases h with h | h <;> subst h <;> simp [respondRequest, respondWrites]

theorem respondRequest_invalid {s : Store} {b a action : String}
    (h1 : action ≠ "accept") (h2 : action ≠ "reject") :
    respondRequest s b a action = (⟨false, none⟩, s) := by
  simp [respondRequest, h1, h2]

/-- Reading a user after the writes of a respond call. -/
theorem findOne_respondWrites (s : Store) (b a action e : String) :
    findOne (respondWrites s b a action) e = (findOne s e).map (respondDoc b a action) := by
  unfold respondWrites
  by_cases hact : action = "accept"
  · simp only [hact, beq_self_eq_true, if_true]
    rw [findOne_updateOne _ (addToSet _) a (fun _ => rfl) (fun u hu => by simpa using hu),
      findOne_updateOne _ (addToSet _) b (fun _ => rfl) (fun u hu => by simpa using hu),
      findOne_updateOne _ (setSentRequests _ _) a (fun _ => rfl)
        (fun u hu => by simp at hu; exact hu.1),
      findOne_updateOne _ (setRequests _ _) b (fun _ => rfl)
        (fun u hu => by simp at hu; exact hu.1)]
    cases findOne s e <;> simp [respondDoc]
  · have hact' : (action == "accept") = false := by simpa using hact
    simp only [hact', Bool.false_eq_true, if_false]
    rw [findOne_updateOne _ (setSentRequests _ _) a (fun _ => rfl)
        (fun u hu => by simp at hu; exact hu.1),
      findOne_updateOne _ (setRequests _ _) b (fun _ => rfl)
        (fun u hu => by simp at hu; exact hu.1)]
    cases findOne s e <;> simp [respondDoc, hact]

@[simp]
theorem sendDoc_email (a b now n : String) (u : User) : (sendDoc a b now n u).email = u.email := by
  simp only [sendDoc]; split_ifs <;> rfl

@[simp]
theorem respondDoc_email (b a action : String) (u : User) :
    (respondDoc b a action u).email = u.email := by
  simp only [respondDoc]; split_ifs <;> rfl

/-! ## What the writes do to the fields of one document -/

theorem sendDoc_requests_to (a b now n : String) (u : User) (h : u.email = b) :
    (sendDoc a b now n u).requests =
      u.requests ++ [{ fromEmail := a, fromName := n, status := "pending", createdAt := now }] := by
  simp only [sendDoc, h, beq_self_eq_true, if_true]
  split_ifs <;> rfl

theorem sendDoc_requests_other (a b now n : String) (u : User) (h : u.email ≠ b) :
    (sendDoc a b now n u).requests = u.requests := by
  have h' : (u.email == b) = false := by simpa using h
  simp only [sendDoc, h', Bool.false_eq_true, if_false]
  split_ifs <;> rfl

theorem sendDoc_sentRequests_from (a b now n : String) (u : User) (h : u.email = a) :
    (sendDoc a b now n u).sentRequests =
      u.sentRequests ++ [{ toEmail := b, status := "pending" }] := by
  simp only [sendDoc]
  split_ifs with h1 h2 h2
  · rfl
  · exact absurd (by simpa using h) h2
  · rfl
  · exact absurd (by simpa using h) h2

theorem sendDoc_sentRequests_other (a b now n : String) (u : User) (h : u.email ≠ a) :
    (sendDoc a b now n u).sentRequests = u.sentRequests := by
  simp only [sendDoc]
  split_ifs with h1 h2 h2
  · exact absurd (by simpa using h2) h
  · rfl
  · exact absurd (by simpa using h2) h
  · rfl

@[simp]
theorem sendDoc_connections (a b now n : String) (u : User) :
    (sendDoc a b now n u).connections = u.connections := by
  simp only [sendDoc]; split_ifs <;> rfl

theorem mem_addToSet_self (x : String) (u : User) : x ∈ (addToSet x u).connections := by
  unfold addToSet
  by_cases h : x ∈ u.connections <;> simp [h]

theorem mem_addToSet_of_mem (x : String) (u : User) {y : String} (h : y ∈ u.connections) :
    y ∈ (addToSet x u).connections := by
  unfold addToSet
  by_cases hx : x ∈ u.connections <;> simp [hx, h]

theorem respondDoc_accept_connects_from (b a : String) (u : User) (h : u.email = a) :
    b ∈ (respondDoc b a "accept" u).connections := by
  simp only [respondDoc, beq_self_eq_true, if_true]
  split_ifs with h1 h2 h3 h4 h4 h5 h5 h2 h3 h4 h4 h5 h5 <;>
    first
    | exact mem_addToSet_self _ _
    | (exfalso; simp_all)

theorem respondDoc_accept_connects_to (b a : String) (u : User) (h : u.email = b) :
    a ∈ (respondDoc b a "accept" u).connections := by
  simp only [respondDoc, beq_self_eq_true, if_true]
  split_ifs <;>
    first
    | exact mem_addToSet_self _ _
    | exact mem_addToSet_of_mem _ _ (mem_addToSet_self _ _)
    | (exfalso; simp_all)

/-! ## Records stay in place and never return to `pending` -/

theorem docKeeps_refl (u : User) : DocKeeps u u :=
  ⟨fun _ r h => ⟨r, h, rfl, id⟩, fun _ r h => ⟨r, h, rfl, id⟩⟩

theorem docKeeps_trans {u v w : User} (h1 : DocKeeps u v) (h2 : DocKeeps v w) : DocKeeps u w := by
  constructor
  · intro j r hr
    obtain ⟨r2, hr2, he2, hs2⟩ := h1.1 j r hr
    obtain ⟨r3, hr3, he3, hs3⟩ := h2.1 j r2 hr2
    exact ⟨r3, hr3, he3.trans he2, fun h => hs3 (hs2 h)⟩
  · intro j r hr
    obtain ⟨r2, hr2, he2, hs2⟩ := h1.2 j r hr
    obtain ⟨r3, hr3, he3, hs3⟩ := h2.2 j r2 hr2
    exact ⟨r3, hr3, he3.trans he2, fun h => hs3 (hs2 h)⟩

theorem storeKeeps_refl (s : Store) : StoreKeeps s s :=
  fun _ u h => ⟨u, h, docKeeps_refl u⟩

theorem storeKeeps_trans {s t w : Store} (h1 : StoreKeeps s t) (h2 : StoreKeeps t w) :
    StoreKeeps s w := by
  intro i u hu
  obtain ⟨u2, hu2, hk2⟩ := h1 i u hu
  obtain ⟨u3, hu3, hk3⟩ := h2 i u2 hu2
  exact ⟨u3, hu3, docKeeps_trans hk2 hk3⟩

theorem updateOne_getElem? (p : User → Bool) (f : User → User) (s : Store) (i : Nat) (u : User)
    (h : s[i]? = some u) :
    (updateOne p f s)[i]? = some u ∨ (updateOne p f s)[i]? = some (f u) := by
  induction s generalizing i with
  | nil => simp at h
  | cons x t ih =>
    by_cases hx : p x = true
    · cases i with
      | zero =>
        simp only [List.getElem?_cons_zero, Option.some.injEq] at h
        subst h
        right
        simp [updateOne, hx]
      | succ n =>
        left
        simpa [updateOne, hx] using h
    · have hx2 : p x = false := by simpa using hx
      cases i with
      | zero => left; simpa [updateOne, hx2] using h
      | succ n =>
        simp only [List.getElem?_cons_succ] at h
        simpa [updateOne, hx2] using ih n h

theorem storeKeeps_updateOne (p : User → Bool) (f : User → User) (hf : ∀ u, DocKeeps u (f u))
    (s : Store) : StoreKeeps s (updateOne p f s) := by
  intro i u hu
  rcases updateOne_getElem? p f s i u hu with h | h
  · exact ⟨u, h, docKeeps_refl u⟩
  · exact ⟨f u, h, hf u⟩

theorem getElem?_append_of_some {α : Type} {l : List α} {j : Nat} {r : α} (x : α)
    (h : l[j]? = some r) : (l ++ [x])[j]? = some r := by
  have hj : j < l.length := by
    rcases List.getElem?_eq_some.mp h with ⟨hj, _⟩
    exact hj
  rw [List.getElem?_append_left hj]
  exact h

theorem docKeeps_pushRequest (x : IncomingRequest) (u : User) : DocKeeps u (pushRequest x u) :=
  ⟨fun _ r h => ⟨r, getElem?_append_of_some x h, rfl, id⟩, fun _ r h => ⟨r, h, rfl, id⟩⟩

theorem docKeeps_pushSentRequest (x : SentRequest) (u : User) :
    DocKeeps u (pushSentRequest x u) :=
  ⟨fun _ r h => ⟨r, h, rfl, id⟩, fun _ r h => ⟨r, getElem?_append_of_some x h, rfl, id⟩⟩

theorem docKeeps_addToSet (x : String) (u : User) : DocKeeps u (addToSet x u) :=
  ⟨fun _ r h => ⟨r, h, rfl, id⟩, fun _ r h => ⟨r, h, rfl, id⟩⟩

theorem setRequestStatus_getElem? (a act : String) (l : List IncomingRequest) (j : Nat)
    (r : IncomingRequest) (h : l[j]? = some r) :
    ∃ r2, (setRequestStatus a act l)[j]? = some r2 ∧ r2.fromEmail = r.fromEmail ∧
      (r2.status = r.status ∨ r2.status = act) := by
  induction l generalizing j with
  | nil => simp at h
  | cons x t ih =>
    by_cases hx : x.fromEmail = a
    · cases j with
      | zero =>
        simp only [List.getElem?_cons_zero, Option.some.injEq] at h
        subst h
        exact ⟨{ x with status := act }, by simp [setRequestStatus, hx], rfl, Or.inr rfl⟩
      | succ n =>
        exact ⟨r, by simpa [setRequestStatus, hx] using h, rfl, Or.inl rfl⟩
    · cases j with
      | zero => exact ⟨r, by simpa [setRequestStatus, hx] using h, rfl, Or.inl rfl⟩
      | succ n =>
        simp only [List.getElem?_cons_succ] at h
        obtain ⟨r2, h2, he, hs⟩ := ih n h
        exact ⟨r2, by simpa [setRequestStatus, hx] using h2, he, hs⟩

theorem setSentStatus_getElem? (b act : String) (l : List SentRequest) (j : Nat)
    (r : SentRequest) (h : l[j]? = some r) :
    ∃ r2, (setSentStatus b act l)[j]? = some r2 ∧ r2.toEmail = r.toEmail ∧
      (r2.status = r.status ∨ r2.status = act) := by
  induction l generalizing j with
  | nil => simp at h
  | cons x t ih =>
    by_cases hx : x.toEmail = b
    · cases j with
      | zero =>
        simp only [List.getElem?_cons_zero, Option.some.injEq] at h
        subst h
        exact ⟨{ x with status := act }, by simp [setSentStatus, hx], rfl, Or.inr rfl⟩
      | succ n =>
        exact ⟨r, by simpa [setSentStatus, hx] using h, rfl, Or.inl rfl⟩
    · cases j with
      | zero => exact ⟨r, by simpa [setSentStatus, hx] using h, rfl, Or.inl rfl⟩
      | succ n =>
        simp only [List.getElem?_cons_succ] at h
        obtain ⟨r2, h2, he, hs⟩ := ih n h
        exact ⟨r2, by simpa [setSentStatus, hx] using h2, he, hs⟩

theorem docKeeps_setRequests (a act : String) (hact : act ≠ "pending") (u : User) :
    DocKeeps u (setRequests a act u) := by
  refine ⟨fun j r h => ?_, fun _ r h => ⟨r, h, rfl, id⟩⟩
  obtain ⟨r2, h2, he, hs⟩ := setRequestStatus_getElem? a act u.requests j r h
  refine ⟨r2, h2, he, fun hr => ?_⟩
  rcases hs with hs | hs
  · rw [hs]; exact hr
  · rw [hs]; exact hact

theorem docKeeps_setSentRequests (b act : String) (hact : act ≠ "pending") (u : User) :
    DocKeeps u (setSentRequests b act u) := by
  refine ⟨fun _ r h => ⟨r, h, rfl, id⟩, fun j r h => ?_⟩
  obtain ⟨r2, h2, he, hs⟩ := setSentStatus_getElem? b act u.sentRequests j r h
  refine ⟨r2, h2, he, fun hr => ?_⟩
  rcases hs with hs | hs
  · rw [hs]; exact hr
  · rw [hs]; exact hact

theorem storeKeeps_sendRequest (s : Store) (a b now : String) :
    StoreKeeps s (sendRequest s a b now).2 := by
  cases h : (sendRequest s a b now).1.success with
  | false => rw [sendRequest_failure_store h]; exact storeKeeps_refl s
  | true =>
    obtain ⟨ua, _, _, _, _, _, _, hs⟩ := sendRequest_success_inv h
    rw [hs]
    exact storeKeeps_trans (storeKeeps_updateOne _ _ (docKeeps_pushRequest _) s)
      (storeKeeps_updateOne _ _ (docKeeps_pushSentRequest _) _)

theorem storeKeeps_respondWrites (s : Store) (b a act : String) (hact : act ≠ "pending") :
    StoreKeeps s (respondWrites s b a act) := by
  have h12 := storeKeeps_trans (storeKeeps_updateOne
      (fun u => u.email == b && u.requests.any (fun r => r.fromEmail == a))
      _ (docKeeps_setRequests a act hact) s)
    (storeKeeps_updateOne
      (fun u => u.email == a && u.sentRequests.any (fun r => r.toEmail == b))
      _ (docKeeps_setSentRequests b act hact) _)
  unfold respondWrites
  by_cases hacc : (act == "accept") = true
  · simp only [hacc, if_true]
    exact storeKeeps_trans h12 (storeKeeps_trans
      (storeKeeps_updateOne _ _ (docKeeps_addToSet _) _)
      (storeKeeps_updateOne _ _ (docKeeps_addToSet _) _))
  · simp only [hacc, if_false]
    exact h12

theorem storeKeeps_respondRequest (s : Store) (b a act : String) :
    StoreKeeps s (respondRequest s b a act).2 := by
  by_cases h1 : act = "accept"
  · rw [respondRequest_valid (Or.inl h1)]
    exact storeKeeps_respondWrites s b a act (by rw [h1]; decide)
  · by_cases h2 : act = "reject"
    · rw [respondRequest_valid (Or.inr h2)]
      exact storeKeeps_respondWrites s b a act (by rw [h2]; decide)
    · rw [respondRequest_invalid h1 h2]
      exact storeKeeps_refl s

theorem storeKeeps_step (s : Store) (c : Call) : StoreKeeps s (step s c) := by
  cases c with
  | send f t now => exact storeKeeps_sendRequest s f t now
  | respond t f a => exact storeKeeps_respondRequest s t f a

theorem storeKeeps_run (s : Store) (cs : List Call) : StoreKeeps s (run s cs) := by
  induction cs generalizing s with
  | nil => exact storeKeeps_refl s
  | cons c cs ih => exact storeKeeps_trans (storeKeeps_step s c) (ih (step s c))

/-! ## Repeating an update -/

theorem updateOne_eq_self (p : User → Bool) (f : User → User) (s : Store)
    (h : ∀ u, s.find? p = some u → f u = u) : updateOne p f s = s := by
  induction s with
  | nil => rfl
  | cons x t ih =>
    by_cases hx : p x = true
    · have : f x = x := h x (by simp [List.find?_cons, hx])
      simp [updateOne, hx, this]
    · have hx2 : p x = false := by simpa using hx
      have ht : updateOne p f t = t := ih (fun u hu => h u (by simpa [List.find?_cons, hx2] using hu))
      simp [updateOne, hx2, ht]

/-- The first document matching `p` after an `updateOne` whose update does not change `p`: it is
the first document that matched before, possibly rewritten. -/
theorem find?_updateOne_rel (p q : User → Bool) (f : User → User)
    (hpf : ∀ u, p (f u) = p u) (s : Store) (u2 : User)
    (h : (updateOne q f s).find? p = some u2) :
    ∃ u, s.find? p = some u ∧ (u2 = u ∨ u2 = f u) := by
  induction s with
  | nil => simp [updateOne] at h
  | cons x t ih =>
    by_cases hq : q x = true
    · simp only [updateOne, hq, if_true, List.find?_cons, hpf] at h ⊢
      cases hp : p x with
      | true =>
        simp only [hp, Option.some.injEq] at h
        exact ⟨x, rfl, Or.inr h.symm⟩
      | false =>
        simp only [hp] at h
        exact ⟨u2, h, Or.inl rfl⟩
    · have hq2 : q x = false := by simpa using hq
      simp only [updateOne, hq2, Bool.false_eq_true, if_false, List.find?_cons] at h ⊢
      cases hp : p x with
      | true =>
        simp only [hp, Option.some.injEq] at h
        exact ⟨x, rfl, Or.inl h.symm⟩
      | false =>
        simp only [hp] at h
        exact ih h

theorem find?_updateOne_same (p : User → Bool) (f : User → User)
    (hpf : ∀ u, p (f u) = p u) (s : Store) :
    (updateOne p f s).find? p = (s.find? p).map f := by
  induction s with
  | nil => rfl
  | cons x t ih =>
    cases hp : p x with
    | true => simp [updateOne, hp, List.find?_cons, hpf]
    | false => simp [updateOne, hp, List.find?_cons, ih]

/-- After `updateOne p f`, the first document matching `p` has the property `f` establishes. -/
theorem first_updateOne_self (p : User → Bool) (f : User → User) (Q : User → Prop)
    (hpf : ∀ u, p (f u) = p u) (hQ : ∀ u, Q (f u)) (s : Store) :
    ∀ u, (updateOne p f s).find? p = some u → Q u := by
  intro u hu
  rw [find?_updateOne_same p f hpf] at hu
  cases hs : s.find? p with
  | none => simp [hs] at hu
  | some v =>
    simp only [hs, Option.map_some', Option.some.injEq] at hu
    rw [← hu]; exact hQ v

/-- A property of the first document matching `p` survives an `updateOne` that changes neither
`p` nor the property. -/
theorem first_updateOne_pres (p q : User → Bool) (f : User → User) (Q : User → Prop)
    (hpf : ∀ u, p (f u) = p u) (hQ : ∀ u, Q u → Q (f u)) (s : Store)
    (h : ∀ u, s.find? p = some u → Q u) :
    ∀ u, (updateOne q f s).find? p = some u → Q u := by
  intro u2 hu2
  obtain ⟨u, hu, hcase⟩ := find?_updateOne_rel p q f hpf s u2 hu2
  rcases hcase with rfl | rfl
  · exact h _ hu
  · exact hQ u (h u hu)

theorem setRequestStatus_idem (a act : String) (l : List IncomingRequest) :
    setRequestStatus a act (setRequestStatus a act l) = setRequestStatus a act l := by
  induction l with
  | nil => rfl
  | cons x t ih =>
    by_cases hx : x.fromEmail = a
    · simp [setRequestStatus, hx]
    · simp [setRequestStatus, hx, ih]

theorem setSentStatus_idem (b act : String) (l : List SentRequest) :
    setSentStatus b act (setSentStatus b act l) = setSentStatus b act l := by
  induction l with
  | nil => rfl
  | cons x t ih =>
    by_cases hx : x.toEmail = b
    · simp [setSentStatus, hx]
    · simp [setSentStatus, hx, ih]

theorem any_setRequestStatus (a act e : String) (l : List IncomingRequest) :
    (setRequestStatus a act l).any (fun r => r.fromEmail == e) =
      l.any (fun r => r.fromEmail == e) := by
  induction l with
  | nil => rfl
  | cons x t ih =>
    by_cases hx : x.fromEmail = a
    · simp [setRequestStatus, hx]
    · simp [setRequestStatus, hx, ih]

theorem any_setSentStatus (b act e : String) (l : List SentRequest) :
    (setSentStatus b act l).any (fun r => r.toEmail == e) =
      l.any (fun r => r.toEmail == e) := by
  induction l with
  | nil => rfl
  | cons x t ih =>
    by_cases hx : x.toEmail = b
    · simp [setSentStatus, hx]
    · simp [setSentStatus, hx, ih]

theorem addToSet_idem (x : String) (u : User) : addToSet x (addToSet x u) = addToSet x u := by
  unfold addToSet
  by_cases h : x ∈ u.connections <;> simp [h]

theorem addToSet_eq_self_of_mem (x : String) (u : User) (h : x ∈ u.connections) :
    addToSet x u = u := by
  unfold addToSet
  simp [h]

theorem mem_of_addToSet_eq_self (x : String) (u : User) (h : addToSet x u = u) :
    x ∈ u.connections := by
  have := mem_addToSet_self x u
  rwa [h] at this

theorem nodup_addToSet (x : String) (u : User) (h : u.connections.Nodup) :
    (addToSet x u).connections.Nodup := by
  unfold addToSet
  by_cases hx : x ∈ u.connections
  · simpa [hx] using h
  · simp only [hx, if_false]
    rw [List.nodup_append]
    exact ⟨h, List.nodup_singleton x, by simpa using hx⟩

theorem respondWrites_accept (s : Store) (b a : String) :
    respondWrites s b a "accept" =
      updateOne (fun u => u.email == a) (addToSet b)
        (updateOne (fun u => u.email == b) (addToSet a)
          (updateOne
            (fun u => u.email == a && u.sentRequests.any (fun r => r.toEmail == b))
            (setSentRequests b "accept")
            (updateOne
              (fun u => u.email == b && u.requests.any (fun r => r.fromEmail == a))
              (setRequests a "accept") s))) := by
  simp [respondWrites]

theorem setRequests_eq_self_iff (a act : String) (u : User) :
    setRequests a act u = u ↔ setRequestStatus a act u.requests = u.requests := by
  cases u; simp [setRequests]

theorem setSentRequests_eq_self_iff (b act : String) (u : User) :
    setSentRequests b act u = u ↔ setSentStatus b act u.sentRequests = u.sentRequests := by
  cases u; simp [setSentRequests]

/-- The writes of an accept are all void on a store they have already been applied to. -/
theorem respondWrites_accept_idem (s : Store) (b a : String) :
    respondWrites (respondWrites s b a "accept") b a "accept" = respondWrites s b a "accept" := by
  have h1 : ∀ u, (respondWrites s b a "accept").find?
      (fun u => u.email == b && u.requests.any (fun r => r.fromEmail == a)) = some u →
      setRequests a "accept" u = u := by
    rw [respondWrites_accept]
    refine first_updateOne_pres (fun u => u.email == b && u.requests.any (fun r => r.fromEmail == a))
      _ (addToSet b) (fun u => setRequests a "accept" u = u)
      (fun _ => rfl) (fun u hu => ?_) _ ?_
    · beta_reduce at hu ⊢; rw [setRequests_eq_self_iff] at hu ⊢; exact hu
    refine first_updateOne_pres (fun u => u.email == b && u.requests.any (fun r => r.fromEmail == a))
      _ (addToSet a) (fun u => setRequests a "accept" u = u)
      (fun _ => rfl) (fun u hu => ?_) _ ?_
    · beta_reduce at hu ⊢; rw [setRequests_eq_self_iff] at hu ⊢; exact hu
    refine first_updateOne_pres (fun u => u.email == b && u.requests.any (fun r => r.fromEmail == a))
      _ (setSentRequests b "accept")
      (fun u => setRequests a "accept" u = u) (fun _ => rfl) (fun u hu => ?_) _ ?_
    · beta_reduce at hu ⊢; rw [setRequests_eq_self_iff] at hu ⊢; exact hu
    exact first_updateOne_self (fun u => u.email == b && u.requests.any (fun r => r.fromEmail == a))
      (setRequests a "accept") (fun u => setRequests a "accept" u = u)
      (fun u => by simp [setRequests, any_setRequestStatus])
      (fun u => by simp [setRequests, setRequestStatus_idem]) s
  have h2 : ∀ u, (respondWrites s b a "accept").find?
      (fun u => u.email == a && u.sentRequests.any (fun r => r.toEmail == b)) = some u →
      setSentRequests b "accept" u = u := by
    rw [respondWrites_accept]
    refine first_updateOne_pres (fun u => u.email == a && u.sentRequests.any (fun r => r.toEmail == b))
      _ (addToSet b) (fun u => setSentRequests b "accept" u = u)
      (fun _ => rfl) (fun u hu => ?_) _ ?_
    · beta_reduce at hu ⊢; rw [setSentRequests_eq_self_iff] at hu ⊢; exact hu
    refine first_updateOne_pres (fun u => u.email == a && u.sentRequests.any (fun r => r.toEmail == b))
      _ (addToSet a) (fun u => setSentRequests b "accept" u = u)
      (fun _ => rfl) (fun u hu => ?_) _ ?_
    · beta_reduce at hu ⊢; rw [setSentRequests_eq_self_iff] at hu ⊢; exact hu
    exact first_updateOne_self (fun u => u.email == a && u.sentRequests.any (fun r => r.toEmail == b))
      (setSentRequests b "accept")
      (fun u => setSentRequests b "accept" u = u)
      (fun u => by simp [setSentRequests, any_setSentStatus])
      (fun u => by simp [setSentRequests, setSentStatus_idem]) _
  have h3 : ∀ u, (respondWrites s b a "accept").find? (fun u => u.email == b) = some u →
      addToSet a u = u := by
    rw [respondWrites_accept]
    refine first_updateOne_pres (fun u => u.email == b) _ (addToSet b) (fun u => addToSet a u = u)
      (fun _ => rfl) (fun u hu => ?_) _ ?_
    · exact addToSet_eq_self_of_mem _ _
        (mem_addToSet_of_mem _ _ (mem_of_addToSet_eq_self _ _ hu))
    exact first_updateOne_self (fun u => u.email == b) (addToSet a) (fun u => addToSet a u = u)
      (fun _ => rfl) (fun u => addToSet_idem a u) _
  have h4 : ∀ u, (respondWrites s b a "accept").find? (fun u => u.email == a) = some u →
      addToSet b u = u := by
    rw [respondWrites_accept]
    exact first_updateOne_self (fun u => u.email == a) (addToSet b) (fun u => addToSet b u = u)
      (fun _ => rfl) (fun u => addToSet_idem b u) _
  rw [respondWrites_accept (respondWrites s b a "accept")]
  rw [updateOne_eq_self _ _ _ h1, updateOne_eq_self _ _ _ h2, updateOne_eq_self _ _ _ h3,
    updateOne_eq_self _ _ _ h4]

theorem respondDoc_accept_nodup (b a : String) (u : User) (h : u.connections.Nodup) :
    (respondDoc b a "accept" u).connections.Nodup := by
  simp only [respondDoc, beq_self_eq_true, if_true]
  split_ifs <;>
    first
    | exact h
    | exact nodup_addToSet _ _ h
    | exact nodup_addToSet _ _ (nodup_addToSet _ _ h)

/-! ## The statuses of an ordered pair -/

theorem setRequestStatus_eq_self_of_not_any (a act : String) (l : List IncomingRequest)
    (h : l.any (fun r => r.fromEmail == a) = false) : setRequestStatus a act l = l := by
  induction l with
  | nil => rfl
  | cons x t ih =>
    simp only [List.any_cons, Bool.or_eq_false_iff] at h
    simp [setRequestStatus, h.1, ih h.2]

theorem setSentStatus_eq_self_of_not_any (b act : String) (l : List SentRequest)
    (h : l.any (fun r => r.toEmail == b) = false) : setSentStatus b act l = l := by
  induction l with
  | nil => rfl
  | cons x t ih =>
    simp only [List.any_cons, Bool.or_eq_false_iff] at h
    simp [setSentStatus, h.1, ih h.2]

theorem statuses_setRequestStatus (a act x : String) (l : List IncomingRequest) :
    ((setRequestStatus a act l).filter (fun r => r.fromEmail == x)).map (fun r => r.status) =
      if x = a then setHead act ((l.filter (fun r => r.fromEmail == a)).map (fun r => r.status))
      else (l.filter (fun r => r.fromEmail == x)).map (fun r => r.status) := by
  induction l with
  | nil => by_cases hx : x = a <;> simp [setRequestStatus, setHead, hx]
  | cons y t ih =>
    by_cases hy : y.fromEmail = a
    · by_cases hx : x = a
      · subst hx
        simp [setRequestStatus, hy, setHead, List.filter_cons]
      · have hyx : ¬ y.fromEmail = x := fun h => hx (h.symm.trans hy)
        have hax : ¬ a = x := fun h => hx h.symm
        simp [setRequestStatus, hy, hx, hax, List.filter_cons]
    · by_cases hx : x = a
      · subst hx
        simp only [if_true] at ih
        simp [setRequestStatus, hy, List.filter_cons, ih]
      · simp only [hx, if_false] at ih
        by_cases hyx : y.fromEmail = x
        · simp [setRequestStatus, hy, hx, hyx, List.filter_cons, ih]
        · simp [setRequestStatus, hy, hx, hyx, List.filter_cons, ih]

theorem statuses_setSentStatus (b act x : String) (l : List SentRequest) :
    ((setSentStatus b act l).filter (fun r => r.toEmail == x)).map (fun r => r.status) =
      if x = b then setHead act ((l.filter (fun r => r.toEmail == b)).map (fun r => r.status))
      else (l.filter (fun r => r.toEmail == x)).map (fun r => r.status) := by
  induction l with
  | nil => by_cases hx : x = b <;> simp [setSentStatus, setHead, hx]
  | cons y t ih =>
    by_cases hy : y.toEmail = b
    · by_cases hx : x = b
      · subst hx
        simp [setSentStatus, hy, setHead, List.filter_cons]
      · have hyx : ¬ y.toEmail = x := fun h => hx (h.symm.trans hy)
        have hbx : ¬ b = x := fun h => hx h.symm
        simp [setSentStatus, hy, hx, hbx, List.filter_cons]
    · by_cases hx : x = b
      · subst hx
        simp only [if_true] at ih
        simp [setSentStatus, hy, List.filter_cons, ih]
      · simp only [hx, if_false] at ih
        by_cases hyx : y.toEmail = x
        · simp [setSentStatus, hy, hx, hyx, List.filter_cons, ih]
        · simp [setSentStatus, hy, hx, hyx, List.filter_cons, ih]

theorem count_pending_setHead (act : String) (hact : act ≠ "pending") (l : List String) :
    (setHead act l).count "pending" ≤ l.count "pending" := by
  cases l with
  | nil => simp [setHead]
  | cons y t =>
    simp only [setHead, List.count_cons]
    have : (act == "pending") = false := by simpa using hact
    simp [this]

theorem pending_filter_length_requests (e : String) (l : List IncomingRequest) :
    (l.filter (fun r => r.fromEmail == e && r.status == "pending")).length =
      ((l.filter (fun r => r.fromEmail == e)).map (fun r => r.status)).count "pending" := by
  induction l with
  | nil => rfl
  | cons y t ih =>
    by_cases hy : y.fromEmail = e
    · by_cases hs : y.status = "pending"
      · simp [List.filter_cons, hy, hs, ih]
      · simp [List.filter_cons, hy, hs, ih, List.count_cons]
    · simp [List.filter_cons, hy, ih]

theorem pending_filter_length_sent (e : String) (l : List SentRequest) :
    (l.filter (fun r => r.toEmail == e && r.status == "pending")).length =
      ((l.filter (fun r => r.toEmail == e)).map (fun r => r.status)).count "pending" := by
  induction l with
  | nil => rfl
  | cons y t ih =>
    by_cases hy : y.toEmail = e
    · by_cases hs : y.status = "pending"
      · simp [List.filter_cons, hy, hs, ih]
      · simp [List.filter_cons, hy, hs, ih, List.count_cons]
    · simp [List.filter_cons, hy, ih]

theorem respondDoc_requests (b a act : String) (u : User) :
    (respondDoc b a act u).requests =
      if u.email = b then setRequestStatus a act u.requests else u.requests := by
  have key : (if u.email == b && u.requests.any (fun r => r.fromEmail == a)
      then setRequests a act u else u).requests =
      if u.email = b then setRequestStatus a act u.requests else u.requests := by
    by_cases hb : u.email = b
    · cases hany : u.requests.any (fun r => r.fromEmail == a) with
      | true => simp [hb, hany, setRequests]
      | false => simp [hb, hany, setRequestStatus_eq_self_of_not_any a act _ hany]
    · simp [hb]
  rw [← key]
  simp only [respondDoc]
  split_ifs <;> rfl

theorem respondDoc_sentRequests (b a act : String) (u : User) :
    (respondDoc b a act u).sentRequests =
      if u.email = a then setSentStatus b act u.sentRequests else u.sentRequests := by
  have key : ∀ v : User, (if v.email == a && v.sentRequests.any (fun r => r.toEmail == b)
      then setSentRequests b act v else v).sentRequests =
      if v.email = a then setSentStatus b act v.sentRequests else v.sentRequests := by
    intro v
    by_cases ha : v.email = a
    · cases hany : v.sentRequests.any (fun r => r.toEmail == b) with
      | true => simp [ha, hany, setSentRequests]
      | false => simp [ha, hany, setSentStatus_eq_self_of_not_any b act _ hany]
    · simp [ha]
  have h1 : ∀ (v : User) (c : Bool),
      (if c then setRequests a act v else v).sentRequests = v.sentRequests ∧
      (if c then setRequests a act v else v).email = v.email := by
    intro v c; cases c <;> exact ⟨rfl, rfl⟩
  have h3 : ∀ v : User,
      (if act == "accept" then
        (if (if v.email == b then addToSet a v else v).email == a
          then addToSet b (if v.email == b then addToSet a v else v)
          else (if v.email == b then addToSet a v else v))
        else v).sentRequests = v.sentRequests := by
    intro v; split_ifs <;> rfl
  simp only [respondDoc]
  rw [h3, key, (h1 _ _).1, (h1 _ _).2]

theorem reqsOf_sendWrites (s : Store) (a b now n e : String) (ub : User)
    (hub : findOne s b = some ub) :
    reqsOf (sendWrites s a b now n) e =
      if e = b then
        reqsOf s b ++ [{ fromEmail := a, fromName := n, status := "pending", createdAt := now }]
      else reqsOf s e := by
  unfold reqsOf
  rw [findOne_sendWrites]
  by_cases he : e = b
  · subst he
    simp [hub, sendDoc_requests_to _ _ _ _ _ (findOne_email hub)]
  · cases hu : findOne s e with
    | none => simp [he]
    | some u =>
      have : u.email ≠ b := by rw [findOne_email hu]; exact he
      simp [he, sendDoc_requests_other _ _ _ _ _ this]

theorem sentOf_sendWrites (s : Store) (a b now n e : String) (ua : User)
    (hua : findOne s a = some ua) :
    sentOf (sendWrites s a b now n) e =
      if e = a then sentOf s a ++ [{ toEmail := b, status := "pending" }] else sentOf s e := by
  unfold sentOf
  rw [findOne_sendWrites]
  by_cases he : e = a
  · subst he
    simp [hua, sendDoc_sentRequests_from _ _ _ _ _ (findOne_email hua)]
  · cases hu : findOne s e with
    | none => simp [he]
    | some u =>
      have : u.email ≠ a := by rw [findOne_email hu]; exact he
      simp [he, sendDoc_sentRequests_other _ _ _ _ _ this]

theorem reqsOf_respondWrites (s : Store) (b a act e : String) :
    reqsOf (respondWrites s b a act) e =
      if e = b then setRequestStatus a act (reqsOf s b) else reqsOf s e := by
  unfold reqsOf
  rw [findOne_respondWrites]
  cases hu : findOne s e with
  | none =>
    by_cases he : e = b
    · subst he; simp [hu, setRequestStatus]
    · simp [he]
  | some u =>
    have hue : u.email = e := findOne_email hu
    by_cases he : e = b
    · subst he; simp [hu, respondDoc_requests, hue]
    · have : ¬ u.email = b := by rw [hue]; exact he
      simp [he, respondDoc_requests, this]

theorem sentOf_respondWrites (s : Store) (b a act e : String) :
    sentOf (respondWrites s b a act) e =
      if e = a then setSentStatus b act (sentOf s a) else sentOf s e := by
  unfold sentOf
  rw [findOne_respondWrites]
  cases hu : findOne s e with
  | none =>
    by_cases he : e = a
    · subst he; simp [hu, setSentStatus]
    · simp [he]
  | some u =>
    have hue : u.email = e := findOne_email hu
    by_cases he : e = a
    · subst he; simp [hu, respondDoc_sentRequests, hue]
    · have : ¬ u.email = a := by rw [hue]; exact he
      simp [he, respondDoc_sentRequests, this]

theorem incomingStatuses_sendWrites (s : Store) (a b now n y x : String) (ub : User)
    (hub : findOne s b = some ub) :
    incomingStatuses (sendWrites s a b now n) y x =
      if y = b ∧ x = a then incomingStatuses s b a ++ ["pending"]
      else incomingStatuses s y x := by
  unfold incomingStatuses
  rw [reqsOf_sendWrites s a b now n y ub hub]
  by_cases hy : y = b
  · subst hy
    by_cases hx : x = a
    · subst hx; simp [List.filter_append]
    · have hax : ¬ a = x := fun h => hx h.symm
      simp [hx, hax, List.filter_append, List.filter_cons]
  · simp [hy]

theorem outgoingStatuses_sendWrites (s : Store) (a b now n x y : String) (ua : User)
    (hua : findOne s a = some ua) :
    outgoingStatuses (sendWrites s a b now n) x y =
      if x = a ∧ y = b then outgoingStatuses s a b ++ ["pending"]
      else outgoingStatuses s x y := by
  unfold outgoingStatuses
  rw [sentOf_sendWrites s a b now n x ua hua]
  by_cases hx : x = a
  · subst hx
    by_cases hy : y = b
    · subst hy; simp [List.filter_append]
    · have hby : ¬ b = y := fun h => hy h.symm
      simp [hy, hby, List.filter_append, List.filter_cons]
  · simp [hx]

theorem incomingStatuses_respondWrites (s : Store) (b a act y x : String) :
    incomingStatuses (respondWrites s b a act) y x =
      if y = b ∧ x = a then setHead act (incomingStatuses s b a)
      else incomingStatuses s y x := by
  unfold incomingStatuses
  rw [reqsOf_respondWrites]
  by_cases hy : y = b
  · subst hy
    simp only [if_true, true_and]
    exact statuses_setRequestStatus a act x _
  · simp [hy]

theorem outgoingStatuses_respondWrites (s : Store) (b a act x y : String) :
    outgoingStatuses (respondWrites s b a act) x y =
      if x = a ∧ y = b then setHead act (outgoingStatuses s a b)
      else outgoingStatuses s x y := by
  unfold outgoingStatuses
  rw [sentOf_respondWrites]
  by_cases hx : x = a
  · subst hx
    simp only [if_true, true_and]
    exact statuses_setSentStatus b act y _
  · simp [hx]

/-! ## The invariant of the request lists -/

theorem mem_updateOne (p : User → Bool) (f : User → User) (s : Store) (v : User)
    (h : v ∈ updateOne p f s) : v ∈ s ∨ ∃ y ∈ s, p y = true ∧ v = f y := by
  induction s with
  | nil => simp [updateOne] at h
  | cons x t ih =>
    by_cases hx : p x = true
    · simp only [updateOne, hx, if_true, List.mem_cons] at h
      rcases h with h | h
      · exact Or.inr ⟨x, List.mem_cons_self x t, hx, h⟩
      · exact Or.inl (List.mem_cons_of_mem x h)
    · have hx2 : p x = false := by simpa using hx
      simp only [updateOne, hx2, Bool.false_eq_true, if_false, List.mem_cons] at h
      rcases h with h | h
      · exact Or.inl (by rw [h]; exact List.mem_cons_self x t)
      · rcases ih h with h2 | ⟨y, hy, hpy, hv⟩
        · exact Or.inl (List.mem_cons_of_mem x h2)
        · exact Or.inr ⟨y, List.mem_cons_of_mem x hy, hpy, hv⟩

/-- An update that keeps the email and keeps empty request lists empty preserves the
shadowing condition. -/
theorem pairwise_updateOne_keep (p : User → Bool) (f : User → User)
    (hf : ∀ u, (f u).email = u.email)
    (he : ∀ u, u.requests = [] ∧ u.sentRequests = [] →
      (f u).requests = [] ∧ (f u).sentRequests = [])
    (s : Store) (h : s.Pairwise ShadowEmpty) : (updateOne p f s).Pairwise ShadowEmpty := by
  induction s with
  | nil => simp [updateOne]
  | cons x t ih =>
    rw [List.pairwise_cons] at h
    by_cases hx : p x = true
    · simp only [updateOne, hx, if_true, List.pairwise_cons]
      refine ⟨fun v hv hev => h.1 v hv (by rw [hev, hf]), h.2⟩
    · have hx2 : p x = false := by simpa using hx
      simp only [updateOne, hx2, Bool.false_eq_true, if_false, List.pairwise_cons]
      refine ⟨fun v hv hev => ?_, ih h.2⟩
      rcases mem_updateOne p f t v hv with hv2 | ⟨y, hy, _, rfl⟩
      · exact h.1 v hv2 hev
      · exact he y (h.1 y hy (by rw [← hev, hf]))

/-- An update of the first document with a given email preserves the shadowing condition. -/
theorem pairwise_updateOne_key (e : String) (f : User → User)
    (hf : ∀ u, (f u).email = u.email)
    (s : Store) (h : s.Pairwise ShadowEmpty) :
    (updateOne (fun u => u.email == e) f s).Pairwise ShadowEmpty := by
  induction s with
  | nil => simp [updateOne]
  | cons x t ih =>
    rw [List.pairwise_cons] at h
    by_cases hx : x.email = e
    · simp only [updateOne, hx, beq_self_eq_true, if_true, List.pairwise_cons]
      refine ⟨fun v hv hev => h.1 v hv (by rw [hev, hf]), h.2⟩
    · have hx2 : (x.email == e) = false := by simpa using hx
      simp only [updateOne, hx2, Bool.false_eq_true, if_false, List.pairwise_cons]
      refine ⟨fun v hv hev => ?_, ih h.2⟩
      rcases mem_updateOne _ f t v hv with hv2 | ⟨y, _, hpy, rfl⟩
      · exact h.1 v hv2 hev
      · exfalso
        apply hx
        rw [← hev, hf]
        simpa using hpy

/-- Under the shadowing condition a document is the one `findOne` returns for its email, or it
holds no request record. -/
theorem mem_findOne_or_empty (s : Store) (h : s.Pairwise ShadowEmpty) (u : User) (hu : u ∈ s) :
    findOne s u.email = some u ∨ (u.requests = [] ∧ u.sentRequests = []) := by
  induction s with
  | nil => simp at hu
  | cons x t ih =>
    rw [List.pairwise_cons] at h
    rcases List.mem_cons.mp hu with rfl | hut
    · left; simp [findOne]
    · by_cases hx : x.email = u.email
      · exact Or.inr (h.1 u hut hx.symm)
      · rcases ih h.2 hut with h2 | h2
        · left
          have hx2 : (x.email == u.email) = false := by simpa using hx
          unfold findOne at h2 ⊢
          rw [List.find?_cons, hx2]
          exact h2
        · exact Or.inr h2

theorem pendingInv_of_empty (s : Store)
    (h : ∀ u ∈ s, u.requests = [] ∧ u.sentRequests = []) : PendingInv s := by
  have hr : ∀ e, reqsOf s e = [] := by
    intro e
    unfold reqsOf
    cases hu : findOne s e with
    | none => rfl
    | some u => exact (h u (findOne_mem hu)).1
  have hs : ∀ e, sentOf s e = [] := by
    intro e
    unfold sentOf
    cases hu : findOne s e with
    | none => rfl
    | some u => exact (h u (findOne_mem hu)).2
  refine ⟨?_, fun a b => ?_⟩
  · exact List.pairwise_of_forall_mem_list (fun _ _ v hv _ => h v hv)
  · simp [outgoingStatuses, incomingStatuses, hr, hs]

theorem pendingInv_sendRequest (s : Store) (a b now : String) (h : PendingInv s) :
    PendingInv (sendRequest s a b now).2 := by
  cases hsucc : (sendRequest s a b now).1.success with
  | false => rw [sendRequest_failure_store hsucc]; exact h
  | true =>
    obtain ⟨ua, ub, _, _, hua, hub, hp, hs⟩ := sendRequest_success_inv hsucc
    rw [hs]
    refine ⟨?_, fun x y => ?_⟩
    · exact pairwise_updateOne_key a (pushSentRequest _) (fun _ => rfl) _
        (pairwise_updateOne_key b (pushRequest _) (fun _ => rfl) _ h.1)
    · rw [outgoingStatuses_sendWrites s a b now _ x y ua hua,
        incomingStatuses_sendWrites s a b now _ y x ub hub]
      by_cases hxy : x = a ∧ y = b
      · obtain ⟨rfl, rfl⟩ := hxy
        simp only [and_self, if_true]
        refine ⟨by rw [(h.2 x y).1], ?_⟩
        have hzero : (incomingStatuses s y x).count "pending" = 0 := by
          unfold incomingStatuses reqsOf
          rw [hub, ← pending_filter_length_requests]
          rw [List.length_eq_zero, List.filter_eq_nil_iff]
          intro r hr
          rw [List.any_eq_false] at hp
          exact hp r hr
        simp [List.count_append, hzero]
      · have hyx : ¬ (y = b ∧ x = a) := fun hh => hxy ⟨hh.2, hh.1⟩
        simp only [hxy, hyx, if_false]
        exact h.2 x y

theorem pendingInv_respondWrites (s : Store) (b a act : String) (hact : act ≠ "pending")
    (h : PendingInv s) : PendingInv (respondWrites s b a act) := by
  refine ⟨?_, fun x y => ?_⟩
  · have h12 : (updateOne
        (fun u => u.email == a && u.sentRequests.any (fun r => r.toEmail == b))
        (setSentRequests b act)
        (updateOne
          (fun u => u.email == b && u.requests.any (fun r => r.fromEmail == a))
          (setRequests a act) s)).Pairwise ShadowEmpty := by
      refine pairwise_updateOne_keep _ (setSentRequests b act) (fun _ => rfl) (fun u hu => ?_) _
        (pairwise_updateOne_keep _ (setRequests a act) (fun _ => rfl) (fun u hu => ?_) _ h.1)
      · exact ⟨hu.1, by simp [setSentRequests, hu.2, setSentStatus]⟩
      · exact ⟨by simp [setRequests, hu.1, setRequestStatus], hu.2⟩
    unfold respondWrites
    by_cases hacc : (act == "accept") = true
    · simp only [hacc, if_true]
      exact pairwise_updateOne_key a (addToSet b) (fun _ => rfl) _
        (pairwise_updateOne_key b (addToSet a) (fun _ => rfl) _ h12)
    · simp only [hacc, if_false]
      exact h12
  · rw [outgoingStatuses_respondWrites, incomingStatuses_respondWrites]
    by_cases hxy : x = a ∧ y = b
    · obtain ⟨rfl, rfl⟩ := hxy
      simp only [and_self, if_true]
      refine ⟨by rw [(h.2 x y).1], ?_⟩
      exact le_trans (count_pending_setHead act hact _) (h.2 x y).2
    · have hyx : ¬ (y = b ∧ x = a) := fun hh => hxy ⟨hh.2, hh.1⟩
      simp only [hxy, hyx, if_false]
      exact h.2 x y

theorem pendingInv_respondRequest (s : Store) (b a act : String) (h : PendingInv s) :
    PendingInv (respondRequest s b a act).2 := by
  by_cases h1 : act = "accept"
  · rw [respondRequest_valid (Or.inl h1)]
    exact pendingInv_respondWrites s b a act (by rw [h1]; decide) h
  · by_cases h2 : act = "reject"
    · rw [respondRequest_valid (Or.inr h2)]
      exact pendingInv_respondWrites s b a act (by rw [h2]; decide) h
    · rw [respondRequest_invalid h1 h2]
      exact h

theorem pendingInv_run (s : Store) (cs : List Call) (h : PendingInv s) :
    PendingInv (run s cs) := by
  induction cs generalizing s with
  | nil => exact h
  | cons c cs ih =>
    refine ih (step s c) ?_
    cases c with
    | send f t now => exact pendingInv_sendRequest s f t now h
    | respond t f a => exact pendingInv_respondRequest s t f a h

/-! ## Who writes the connection sets -/

theorem map_connections_updateOne (p : User → Bool) (f : User → User)
    (hf : ∀ u, (f u).connections = u.connections) (s : Store) :
    (updateOne p f s).map User.connections = s.map User.connections := by
  induction s with
  | nil => rfl
  | cons x t ih =>
    by_cases hx : p x = true
    · simp [updateOne, hx, hf]
    · have hx2 : p x = false := by simpa using hx
      simp [updateOne, hx2, ih]

theorem map_connections_sendRequest (s : Store) (a b now : String) :
    (sendRequest s a b now).2.map User.connections = s.map User.connections := by
  cases h : (sendRequest s a b now).1.success with
  | false => rw [sendRequest_failure_store h]
  | true =>
    obtain ⟨ua, _, _, _, _, _, _, hs⟩ := sendRequest_success_inv h
    rw [hs, sendWrites,
      map_connections_updateOne _ (pushSentRequest _) (fun _ => rfl),
      map_connections_updateOne _ (pushRequest _) (fun _ => rfl)]

theorem map_connections_respondRequest (s : Store) (b a act : String) (h : act ≠ "accept") :
    (respondRequest s b a act).2.map User.connections = s.map User.connections := by
  by_cases h2 : act = "reject"
  · rw [respondRequest_valid (Or.inr h2)]
    have hacc : (act == "accept") = false := by simpa using h
    simp only [respondWrites, hacc, Bool.false_eq_true, if_false]
    rw [map_connections_updateOne _ (setSentRequests _ _) (fun _ => rfl),
      map_connections_updateOne _ (setRequests _ _) (fun _ => rfl)]
  · rw [respondRequest_invalid h h2]

/-! ## Which record a respond call rewrites -/

theorem setRequestStatus_eq_set (a act : String) (l : List IncomingRequest) (i : Nat)
    (r : IncomingRequest) (hi : l[i]? = some r) (hr : r.fromEmail = a)
    (hfirst : ∀ (j : Nat) (r2 : IncomingRequest), j < i → l[j]? = some r2 → r2.fromEmail ≠ a) :
    setRequestStatus a act l = l.set i { r with status := act } := by
  induction l generalizing i with
  | nil => simp at hi
  | cons x t ih =>
    cases i with
    | zero =>
      simp only [List.getElem?_cons_zero, Option.some.injEq] at hi
      subst hi
      simp [setRequestStatus, hr]
    | succ n =>
      have hx : x.fromEmail ≠ a := hfirst 0 x (Nat.succ_pos n) (by simp)
      simp only [List.getElem?_cons_succ] at hi
      have := ih n hi (fun j r2 hj hj2 => hfirst (j + 1) r2 (Nat.succ_lt_succ hj) (by simpa using hj2))
      simp [setRequestStatus, hx, this]

theorem setSentStatus_eq_set (b act : String) (l : List SentRequest) (i : Nat)
    (r : SentRequest) (hi : l[i]? = some r) (hr : r.toEmail = b)
    (hfirst : ∀ (j : Nat) (r2 : SentRequest), j < i → l[j]? = some r2 → r2.toEmail ≠ b) :
    setSentStatus b act l = l.set i { r with status := act } := by
  induction l generalizing i with
  | nil => simp at hi
  | cons x t ih =>
    cases i with
    | zero =>
      simp only [List.getElem?_cons_zero, Option.some.injEq] at hi
      subst hi
      simp [setSentStatus, hr]
    | succ n =>
      have hx : x.toEmail ≠ b := hfirst 0 x (Nat.succ_pos n) (by simp)
      simp only [List.getElem?_cons_succ] at hi
      have := ih n hi (fun j r2 hj hj2 => hfirst (j + 1) r2 (Nat.succ_lt_succ hj) (by simpa using hj2))
      simp [setSentStatus, hx, this]

theorem exists_first_request (a : String) (l : List IncomingRequest)
    (h : ∃ r ∈ l, r.fromEmail = a) :
    ∃ (i : Nat) (r : IncomingRequest), l[i]? = some r ∧ r.fromEmail = a ∧
      ∀ (j : Nat) (r2 : IncomingRequest), j < i → l[j]? = some r2 → r2.fromEmail ≠ a := by
  induction l with
  | nil => simp at h
  | cons x t ih =>
    by_cases hx : x.fromEmail = a
    · exact ⟨0, x, by simp, hx, fun j _ hj => absurd hj (Nat.not_lt_zero j)⟩
    · obtain ⟨r, hr, hra⟩ := h
      have hrt : r ∈ t := by
        rcases List.mem_cons.mp hr with rfl | hrt
        · exact absurd hra hx
        · exact hrt
      obtain ⟨i, r1, hi, hr1, hfirst⟩ := ih ⟨r, hrt, hra⟩
      refine ⟨i + 1, r1, by simpa using hi, hr1, fun j r2 hj hj2 => ?_⟩
      cases j with
      | zero =>
        simp only [List.getElem?_cons_zero, Option.some.injEq] at hj2
        rw [← hj2]; exact hx
      | succ n =>
        exact hfirst n r2 (Nat.lt_of_succ_lt_succ hj) (by simpa using hj2)

theorem exists_first_sent (b : String) (l : List SentRequest)
    (h : ∃ r ∈ l, r.toEmail = b) :
    ∃ (i : Nat) (r : SentRequest), l[i]? = some r ∧ r.toEmail = b ∧
      ∀ (j : Nat) (r2 : SentRequest), j < i → l[j]? = some r2 → r2.toEmail ≠ b := by
  induction l with
  | nil => simp at h
  | cons x t ih =>
    by_cases hx : x.toEmail = b
    · exact ⟨0, x, by simp, hx, fun j _ hj => absurd hj (Nat.not_lt_zero j)⟩
    · obtain ⟨r, hr, hrb⟩ := h
      have hrt : r ∈ t := by
        rcases List.mem_cons.mp hr with rfl | hrt
        · exact absurd hrb hx
        · exact hrt
      obtain ⟨i, r1, hi, hr1, hfirst⟩ := ih ⟨r, hrt, hrb⟩
      refine ⟨i + 1, r1, by simpa using hi, hr1, fun j r2 hj hj2 => ?_⟩
      cases j with
      | zero =>
        simp only [List.getElem?_cons_zero, Option.some.injEq] at hj2
        rw [← hj2]; exact hx
      | succ n =>
        exact hfirst n r2 (Nat.lt_of_succ_lt_succ hj) (by simpa using hj2)

/-! ## The Verhoeff tables and the checksum loop -/

set_option maxRecDepth 100000 in
theorem d_lookup : ∀ c, c < 10 → ∀ x, x < 10 →
    (verhoeffCheck.d[c]?).isSome = true ∧
    (verhoeffCheck.d[c]?).bind (fun row => row[x]?) = some (dAt c x) ∧ dAt c x < 10 := by
  decide

set_option maxRecDepth 100000 in
theorem p_lookup : ∀ k, k < 8 → ∀ n, n < 10 →
    (verhoeffCheck.p[k]?).bind (fun row => row[n]?) = some (pAt k n) ∧ pAt k n < 10 := by
  decide

set_option maxRecDepth 100000 in
theorem dAt_inj_right : ∀ c, c < 10 → ∀ x, x < 10 → ∀ y, y < 10 →
    dAt c x = dAt c y → x = y := by
  decide

set_option maxRecDepth 100000 in
theorem dAt_inj_left : ∀ x, x < 10 → ∀ c, c < 10 → ∀ c2, c2 < 10 →
    dAt c x = dAt c2 x → c = c2 := by
  decide

set_option maxRecDepth 100000 in
theorem pAt_inj : ∀ k, k < 8 → ∀ n, n < 10 → ∀ m, m < 10 → pAt k n = pAt k m → n = m := by
  decide

theorem isDigit_bounds (ch : Char) (h : ch.isDigit = true) : 48 ≤ ch.toNat ∧ ch.toNat ≤ 57 := by
  simp [Char.isDigit] at h
  exact h

theorem digitVal_lt (ch : Char) (h : ch.isDigit = true) : digitVal ch < 10 := by
  have := isDigit_bounds ch h
  unfold digitVal; omega

theorem digitVal_inj (x y : Char) (hx : x.isDigit = true) (hy : y.isDigit = true)
    (h : digitVal x = digitVal y) : x = y := by
  have h1 := isDigit_bounds x hx
  have h2 := isDigit_bounds y hy
  unfold digitVal at h
  have : x.toNat = y.toNat := by omega
  apply Char.ext
  apply UInt32.eq_of_val_eq
  apply Fin.ext
  exact this

theorem stepNat_lt (c i n : Nat) (hc : c < 10) (hn : n < 10) : stepNat c i n < 10 :=
  (d_lookup c hc _ (p_lookup (i % 8) (Nat.mod_lt i (by decide)) n hn).2).2.2

theorem step_digit (c i : Nat) (ch : Char) (hc : c < 10) (hd : ch.isDigit = true) :
    verhoeffCheck.step (some c) i ch = some (some (stepNat c i (digitVal ch))) := by
  have hn := digitVal_lt ch hd
  have hp := p_lookup (i % 8) (Nat.mod_lt i (by decide)) (digitVal ch) hn
  have hdl := d_lookup c hc _ hp.2
  unfold verhoeffCheck.step
  cases hrow : verhoeffCheck.d[c]? with
  | none => rw [hrow] at hdl; simp at hdl
  | some row =>
    have h2 := hdl.2.1
    rw [hrow] at h2
    simp only [Option.some_bind] at h2
    simp only [parseInt, hd, if_true, Option.some_bind]
    have hp1 : (verhoeffCheck.p[i % 8]?).bind (fun prow => prow[ch.toNat - 48]?) =
        some (pAt (i % 8) (digitVal ch)) := hp.1
    rw [hp1]
    simp only [Option.some_bind, hrow, h2]
    rfl


theorem loopNat_lt (ns : List Nat) (i c : Nat) (hc : c < 10) (hns : ∀ n ∈ ns, n < 10) :
    loopNat ns i c < 10 := by
  induction ns generalizing i c with
  | nil => exact hc
  | cons n rest ih =>
    exact ih (i + 1) _ (stepNat_lt c i n hc (hns n (List.mem_cons_self n rest)))
      (fun m hm => hns m (List.mem_cons_of_mem n hm))

theorem loop_digits (cs : List Char) (i c : Nat) (hc : c < 10)
    (hcs : ∀ ch ∈ cs, ch.isDigit = true) :
    verhoeffCheck.loop cs i (some c) = some (some (loopNat (cs.map digitVal) i c)) := by
  induction cs generalizing i c with
  | nil => rfl
  | cons ch rest ih =>
    have hd := hcs ch (List.mem_cons_self ch rest)
    simp only [verhoeffCheck.loop, step_digit c i ch hc hd, Option.some_bind, List.map_cons,
      loopNat]
    exact ih (i + 1) _ (stepNat_lt c i _ hc (digitVal_lt ch hd))
      (fun x hx => hcs x (List.mem_cons_of_mem ch hx))

theorem loopNat_append (xs ys : List Nat) (i c : Nat) :
    loopNat (xs ++ ys) i c = loopNat ys (i + xs.length) (loopNat xs i c) := by
  induction xs generalizing i c with
  | nil => rfl
  | cons n rest ih =>
    have hidx : i + (rest.length + 1) = i + 1 + rest.length := by omega
    show loopNat (rest ++ ys) (i + 1) (stepNat c i n) =
      loopNat ys (i + (rest.length + 1)) (loopNat rest (i + 1) (stepNat c i n))
    rw [hidx]
    exact ih (i + 1) _

/-- Two different accumulators stay different through the loop. -/
theorem loopNat_inj (ns : List Nat) (i c c2 : Nat) (hc : c < 10) (hc2 : c2 < 10)
    (hns : ∀ n ∈ ns, n < 10) (h : loopNat ns i c = loopNat ns i c2) : c = c2 := by
  induction ns generalizing i c c2 with
  | nil => exact h
  | cons n rest ih =>
    have hn := hns n (List.mem_cons_self n rest)
    have hstep := ih (i + 1) _ _ (stepNat_lt c i n hc hn) (stepNat_lt c2 i n hc2 hn)
      (fun m hm => hns m (List.mem_cons_of_mem n hm)) h
    exact dAt_inj_left _ (p_lookup (i % 8) (Nat.mod_lt i (by decide)) n hn).2 c hc c2 hc2 hstep

/-- Two different digits at one index give different accumulators. -/
theorem stepNat_inj (c i n m : Nat) (hc : c < 10) (hn : n < 10) (hm : m < 10)
    (h : stepNat c i n = stepNat c i m) : n = m := by
  have hk : i % 8 < 8 := Nat.mod_lt i (by decide)
  exact pAt_inj _ hk n hn m hm
    (dAt_inj_right c hc _ (p_lookup _ hk n hn).2 _ (p_lookup _ hk m hm).2 h)

theorem split_digits (s : String) (h : ∀ ch ∈ s.toList, ch.isDigit = true) :
    split s = s.toList := by
  unfold split
  generalize s.toList = l at h
  induction l with
  | nil => rfl
  | cons x t ih =>
    have hx := isDigit_bounds x (h x (List.mem_cons_self x t))
    have hlt : x.toNat < 65536 := by omega
    simp only [List.flatMap_cons, hlt, if_true, List.singleton_append]
    rw [ih (fun ch hch => h ch (List.mem_cons_of_mem x hch))]

/-- Two lists of equal length that agree outside index `i` and differ at `i`. -/
theorem split_at_difference {α : Type} (l l2 : List α) (i : Nat)
    (hlen : l.length = l2.length) (hne : l[i]? ≠ l2[i]?)
    (hsame : ∀ j, j ≠ i → l[j]? = l2[j]?) :
    ∃ pre x y post, l = pre ++ x :: post ∧ l2 = pre ++ y :: post ∧ x ≠ y := by
  induction l generalizing l2 i with
  | nil =>
    cases l2 with
    | nil => simp at hne
    | cons y t => simp at hlen
  | cons a t ih =>
    cases l2 with
    | nil => simp at hlen
    | cons b t2 =>
      cases i with
      | zero =>
        refine ⟨[], a, b, t, rfl, ?_, fun hab => hne (by simp [hab])⟩
        have : t = t2 := by
          apply List.ext_getElem?
          intro j
          simpa using hsame (j + 1) (Nat.succ_ne_zero j)
        simp [this]
      | succ n =>
        have hab : a = b := by simpa using hsame 0 (Nat.succ_ne_zero n).symm
        obtain ⟨pre, x, y, post, h1, h2, hxy⟩ := ih t2 n (by simpa using hlen)
          (by simpa using hne)
          (fun j hj => by simpa using hsame (j + 1) (fun h => hj (Nat.succ_injective h)))
        exact ⟨a :: pre, x, y, post, by simp [h1], by simp [hab, h2], hxy⟩


theorem verhoeffCheck_digits (s : String) (h : ∀ ch ∈ s.toList, ch.isDigit = true) :
    verhoeffCheck s = some (loopNat (s.toList.reverse.map digitVal) 0 0 == 0) := by
  unfold verhoeffCheck
  rw [split_digits s h, loop_digits _ 0 0 (by decide) (fun ch hch => h ch (List.mem_reverse.mp hch))]
  simp

theorem loopNat_single_difference (pre post : List Char) (x y : Char)
    (hpre : ∀ ch ∈ pre, ch.isDigit = true) (hpost : ∀ ch ∈ post, ch.isDigit = true)
    (hx : x.isDigit = true) (hy : y.isDigit = true) (hxy : x ≠ y) :
    loopNat ((pre ++ x :: post).reverse.map digitVal) 0 0 ≠
      loopNat ((pre ++ y :: post).reverse.map digitVal) 0 0 := by
  intro h
  have hA : ∀ n ∈ post.reverse.map digitVal, n < 10 := by
    intro n hn
    obtain ⟨ch, hch, rfl⟩ := List.mem_map.mp hn
    exact digitVal_lt ch (hpost ch (List.mem_reverse.mp hch))
  have hB : ∀ n ∈ pre.reverse.map digitVal, n < 10 := by
    intro n hn
    obtain ⟨ch, hch, rfl⟩ := List.mem_map.mp hn
    exact digitVal_lt ch (hpre ch (List.mem_reverse.mp hch))
  have hcA := loopNat_lt (post.reverse.map digitVal) 0 0 (by decide) hA
  simp only [List.reverse_append, List.reverse_cons, List.append_assoc, List.singleton_append,
    List.map_append, List.map_cons, loopNat_append, loopNat] at h
  have h1 := loopNat_inj _ _ _ _ (stepNat_lt _ _ _ hcA (digitVal_lt x hx))
    (stepNat_lt _ _ _ hcA (digitVal_lt y hy)) hB h
  exact hxy (digitVal_inj x y hx hy
    (stepNat_inj _ _ _ _ hcA (digitVal_lt x hx) (digitVal_lt y hy) h1))

/-! ## Which calls can change the status of a record -/

/-- A request record is never deleted or moved, and once its status is not `pending` no
sequence of calls makes it `pending` again. -/
theorem record_never_reopened (s : Store) (cs : List Call) (k : Slot)
    (e st : String) (h : recordAt s k = some (e, st)) (hst : st ≠ "pending") :
    ∃ st2, recordAt (run s cs) k = some (e, st2) ∧ st2 ≠ "pending" := by
  have hk := storeKeeps_run s cs
  cases k with
  | incoming i j =>
    simp only [recordAt] at h ⊢
    cases hu : s[i]? with
    | none => simp [hu] at h
    | some u =>
      cases hr : u.requests[j]? with
      | none => simp [hu, hr] at h
      | some r =>
        simp only [hu, hr, Option.some_bind, Option.map_some', Option.some.injEq,
          Prod.mk.injEq] at h
        obtain ⟨u2, hu2, hd⟩ := hk i u hu
        obtain ⟨r2, hr2, he, hs⟩ := hd.1 j r hr
        refine ⟨r2.status, ?_, hs (by rw [h.2]; exact hst)⟩
        simp [hu2, hr2, he, h.1]
  | outgoing i j =>
    simp only [recordAt] at h ⊢
    cases hu : s[i]? with
    | none => simp [hu] at h
    | some u =>
      cases hr : u.sentRequests[j]? with
      | none => simp [hu, hr] at h
      | some r =>
        simp only [hu, hr, Option.some_bind, Option.map_some', Option.some.injEq,
          Prod.mk.injEq] at h
        obtain ⟨u2, hu2, hd⟩ := hk i u hu
        obtain ⟨r2, hr2, he, hs⟩ := hd.2 j r hr
        refine ⟨r2.status, ?_, hs (by rw [h.2]; exact hst)⟩
        simp [hu2, hr2, he, h.1]

theorem recordAt_eq_docRecord (s : Store) (k : Slot) :
    recordAt s k = (s[slotDoc k]?).bind (fun u => docRecord u k) := by
  cases k <;> rfl

theorem updateOne_getElem?_cases (p : User → Bool) (f : User → User) (s : Store) (i : Nat)
    (u : User) (h : s[i]? = some u) :
    (updateOne p f s)[i]? = some u ∨ (p u = true ∧ (updateOne p f s)[i]? = some (f u)) := by
  induction s generalizing i with
  | nil => simp at h
  | cons x t ih =>
    by_cases hx : p x = true
    · cases i with
      | zero =>
        simp only [List.getElem?_cons_zero, Option.some.injEq] at h
        subst h
        right
        exact ⟨hx, by simp [updateOne, hx]⟩
      | succ n =>
        left
        simpa [updateOne, hx] using h
    · have hx2 : p x = false := by simpa using hx
      cases i with
      | zero => left; simpa [updateOne, hx2] using h
      | succ n =>
        simp only [List.getElem?_cons_succ] at h
        simpa [updateOne, hx2] using ih n h

/-- An `updateOne` whose update keeps the email and keeps the record of a slot, on the documents
of the slot's owner that carry it, leaves the slot as it was. -/
theorem frame_updateOne (p : User → Bool) (f : User → User) (s : Store) (k : Slot)
    (owner : String) (x : String × String)
    (hf : ∀ u, (f u).email = u.email)
    (hrec : ∀ u, p u = true → u.email = owner → docRecord u k = some x →
      docRecord (f u) k = some x)
    (ho : ownerAt s k = some owner) (h : recordAt s k = some x) :
    ownerAt (updateOne p f s) k = some owner ∧ recordAt (updateOne p f s) k = some x := by
  rw [recordAt_eq_docRecord] at h ⊢
  unfold ownerAt at ho ⊢
  cases hu : s[slotDoc k]? with
  | none => simp [hu] at ho
  | some u =>
    simp only [hu, Option.map_some', Option.some.injEq] at ho
    simp only [hu, Option.some_bind] at h
    rcases updateOne_getElem?_cases p f s (slotDoc k) u hu with h1 | ⟨hp, h1⟩
    · simp [h1, ho, h]
    · simp [h1, hf, ho, hrec u hp ho h]

theorem setRequestStatus_getElem?_of_ne (a act : String) (l : List IncomingRequest) (j : Nat)
    (r : IncomingRequest) (h : l[j]? = some r) (hr : r.fromEmail ≠ a) :
    (setRequestStatus a act l)[j]? = some r := by
  induction l generalizing j with
  | nil => simp at h
  | cons x t ih =>
    by_cases hx : x.fromEmail = a
    · cases j with
      | zero =>
        simp only [List.getElem?_cons_zero, Option.some.injEq] at h
        exact absurd (h ▸ hx) hr
      | succ n => simpa [setRequestStatus, hx] using h
    · cases j with
      | zero => simpa [setRequestStatus, hx] using h
      | succ n =>
        simp only [List.getElem?_cons_succ] at h
        simpa [setRequestStatus, hx] using ih n h

theorem setSentStatus_getElem?_of_ne (b act : String) (l : List SentRequest) (j : Nat)
    (r : SentRequest) (h : l[j]? = some r) (hr : r.toEmail ≠ b) :
    (setSentStatus b act l)[j]? = some r := by
  induction l generalizing j with
  | nil => simp at h
  | cons x t ih =>
    by_cases hx : x.toEmail = b
    · cases j with
      | zero =>
        simp only [List.getElem?_cons_zero, Option.some.injEq] at h
        exact absurd (h ▸ hx) hr
      | succ n => simpa [setSentStatus, hx] using h
    · cases j with
      | zero => simpa [setSentStatus, hx] using h
      | succ n =>
        simp only [List.getElem?_cons_succ] at h
        simpa [setSentStatus, hx] using ih n h

theorem docRecord_pushRequest (x : IncomingRequest) (u : User) (k : Slot)
    (y : String × String) (h : docRecord u k = some y) :
    docRecord (pushRequest x u) k = some y := by
  cases k with
  | incoming i j =>
    simp only [docRecord] at h ⊢
    cases hr : u.requests[j]? with
    | none => simp [hr] at h
    | some r =>
      have : (pushRequest x u).requests[j]? = some r := getElem?_append_of_some x hr
      rw [this]; rw [hr] at h; exact h
  | outgoing i j => exact h

theorem docRecord_pushSentRequest (x : SentRequest) (u : User) (k : Slot)
    (y : String × String) (h : docRecord u k = some y) :
    docRecord (pushSentRequest x u) k = some y := by
  cases k with
  | incoming i j => exact h
  | outgoing i j =>
    simp only [docRecord] at h ⊢
    cases hr : u.sentRequests[j]? with
    | none => simp [hr] at h
    | some r =>
      have : (pushSentRequest x u).sentRequests[j]? = some r := getElem?_append_of_some x hr
      rw [this]; rw [hr] at h; exact h

theorem docRecord_addToSet (x : String) (u : User) (k : Slot) :
    docRecord (addToSet x u) k = docRecord u k := by
  cases k <;> rfl

/-- The incoming write of a respond call keeps every record but those of its own pair. -/
theorem docRecord_setRequests (t f act owner e st : String) (u : User) (k : Slot)
    (hu : u.email = t) (ho : u.email = owner)
    (hans : answers owner e k (Call.respond t f act) = false)
    (h : docRecord u k = some (e, st)) :
    docRecord (setRequests f act u) k = some (e, st) := by
  cases k with
  | outgoing i j => exact h
  | incoming i j =>
    simp only [docRecord] at h ⊢
    cases hr : u.requests[j]? with
    | none => simp [hr] at h
    | some r =>
      simp only [hr, Option.map_some', Option.some.injEq, Prod.mk.injEq] at h
      have hne : r.fromEmail ≠ f := by
        intro hrf
        have : answers owner e (Slot.incoming i j) (Call.respond t f act) = true := by
          simp [answers, ← hu, ho, ← hrf, h.1]
        rw [this] at hans
        exact Bool.noConfusion hans
      have := setRequestStatus_getElem?_of_ne f act u.requests j r hr hne
      simp only [setRequests, this, Option.map_some', h.1, h.2]

/-- The outgoing write of a respond call keeps every record but those of its own pair. -/
theorem docRecord_setSentRequests (t f act owner e st : String) (u : User) (k : Slot)
    (hu : u.email = f) (ho : u.email = owner)
    (hans : answers owner e k (Call.respond t f act) = false)
    (h : docRecord u k = some (e, st)) :
    docRecord (setSentRequests t act u) k = some (e, st) := by
  cases k with
  | incoming i j => exact h
  | outgoing i j =>
    simp only [docRecord] at h ⊢
    cases hr : u.sentRequests[j]? with
    | none => simp [hr] at h
    | some r =>
      simp only [hr, Option.map_some', Option.some.injEq, Prod.mk.injEq] at h
      have hne : r.toEmail ≠ t := by
        intro hrt
        have : answers owner e (Slot.outgoing i j) (Call.respond t f act) = true := by
          simp [answers, ← hu, ho, ← hrt, h.1]
        rw [this] at hans
        exact Bool.noConfusion hans
      have := setSentStatus_getElem?_of_ne t act u.sentRequests j r hr hne
      simp only [setSentRequests, this, Option.map_some', h.1, h.2]

theorem frame_sendRequest (s : Store) (a b now : String) (k : Slot) (owner : String)
    (x : String × String) (ho : ownerAt s k = some owner) (h : recordAt s k = some x) :
    ownerAt (sendRequest s a b now).2 k = some owner ∧
      recordAt (sendRequest s a b now).2 k = some x := by
  cases hsucc : (sendRequest s a b now).1.success with
  | false => rw [sendRequest_failure_store hsucc]; exact ⟨ho, h⟩
  | true =>
    obtain ⟨ua, _, _, _, _, _, _, hs⟩ := sendRequest_success_inv hsucc
    rw [hs, sendWrites]
    have h1 := frame_updateOne (fun u => u.email == b) (pushRequest
        { fromEmail := a, fromName := ua.firstName, status := "pending", createdAt := now })
      s k owner x (fun _ => rfl) (fun u _ _ hu => docRecord_pushRequest _ u k x hu) ho h
    exact frame_updateOne (fun u => u.email == a)
      (pushSentRequest { toEmail := b, status := "pending" }) _ k owner x (fun _ => rfl)
      (fun u _ _ hu => docRecord_pushSentRequest _ u k x hu) h1.1 h1.2

theorem frame_respondRequest (s : Store) (t f act : String) (k : Slot) (owner e st : String)
    (hans : answers owner e k (Call.respond t f act) = false)
    (ho : ownerAt s k = some owner) (h : recordAt s k = some (e, st)) :
    ownerAt (respondRequest s t f act).2 k = some owner ∧
      recordAt (respondRequest s t f act).2 k = some (e, st) := by
  by_cases hv : act = "accept" ∨ act = "reject"
  · rw [respondRequest_valid hv]
    have h1 := frame_updateOne
      (fun u => u.email == t && u.requests.any (fun r => r.fromEmail == f))
      (setRequests f act) s k owner (e, st) (fun _ => rfl)
      (fun u hp hou hu => docRecord_setRequests t f act owner e st u k
        (by simp at hp; exact hp.1) hou hans hu) ho h
    have h2 := frame_updateOne
      (fun u => u.email == f && u.sentRequests.any (fun r => r.toEmail == t))
      (setSentRequests t act) _ k owner (e, st) (fun _ => rfl)
      (fun u hp hou hu => docRecord_setSentRequests t f act owner e st u k
        (by simp at hp; exact hp.1) hou hans hu) h1.1 h1.2
    unfold respondWrites
    by_cases hacc : (act == "accept") = true
    · simp only [hacc, if_true]
      have h3 := frame_updateOne (fun u => u.email == t) (addToSet f) _ k owner (e, st)
        (fun _ => rfl) (fun u _ _ hu => by rw [docRecord_addToSet]; exact hu) h2.1 h2.2
      exact frame_updateOne (fun u => u.email == f) (addToSet t) _ k owner (e, st)
        (fun _ => rfl) (fun u _ _ hu => by rw [docRecord_addToSet]; exact hu) h3.1 h3.2
    · simp only [hacc, if_false]
      exact h2
  · have h1 : act ≠ "accept" := fun hh => hv (Or.inl hh)
    have h2 : act ≠ "reject" := fun hh => hv (Or.inr hh)
    rw [respondRequest_invalid h1 h2]
    exact ⟨ho, h⟩

/-- A sequence of calls none of which is a respond-request for the pair of a record leaves the
record, and the owner of its document, as they were. -/
theorem frame_run (s : Store) (cs : List Call) (k : Slot) (owner e st : String)
    (hans : ∀ c ∈ cs, answers owner e k c = false)
    (ho : ownerAt s k = some owner) (h : recordAt s k = some (e, st)) :
    ownerAt (run s cs) k = some owner ∧ recordAt (run s cs) k = some (e, st) := by
  induction cs generalizing s with
  | nil => exact ⟨ho, h⟩
  | cons c cs ih =>
    have hc := hans c (List.mem_cons_self c cs)
    have hstep : ownerAt (step s c) k = some owner ∧ recordAt (step s c) k = some (e, st) := by
      cases c with
      | send a b now => exact frame_sendRequest s a b now k owner (e, st) ho h
      | respond t f act => exact frame_respondRequest s t f act k owner e st hc ho h
    exact ih (step s c) (fun c2 hc2 => hans c2 (List.mem_cons_of_mem c hc2)) hstep.1 hstep.2

/-! ## Claims -/

/-- C1: for registered users `a ≠ b` (signup refuses an empty email, so both identifiers are
non-empty) with no prior relationship, `POST /api/send-request` reports success; afterwards
`GET /api/requests` for `b` returns the previous incoming list with exactly one record appended,
from `a` and `pending`, and for `a` the previous outgoing list with exactly one record appended,
to `b` and `pending`. -/
theorem send_request_appends_one_pending_record (s : Store) (a b now : String) (ua ub : User)
    (hua : findOne s a = some ua) (hub : findOne s b = some ub)
    (ha : a ≠ "") (hb : b ≠ "") (hab : a ≠ b)
    (_hpa : namesOther ua b = false) (hpb : namesOther ub a = false) :
    (sendRequest s a b now).1.success = true ∧
    getRequests (sendRequest s a b now).2 b =
      some (ub.requests ++ [{ fromEmail := a, fromName := ua.firstName,
                              status := "pending", createdAt := now }],
            ub.sentRequests) ∧
    getRequests (sendRequest s a b now).2 a =
      some (ua.requests, ua.sentRequests ++ [{ toEmail := b, status := "pending" }]) := by
  have hp : ub.requests.any (fun r => r.fromEmail == a && r.status == "pending") = false := by
    simp only [namesOther, Bool.or_eq_false_iff, List.any_eq_false] at hpb
    rw [List.any_eq_false]
    intro r hr
    have := hpb.1.1 r hr
    simp_all
  have hea : ua.email = a := findOne_email hua
  have heb : ub.email = b := findOne_email hub
  rw [sendRequest_ok ha hb hua hub hp]
  refine ⟨rfl, ?_, ?_⟩
  · simp only [getRequests, findOne_sendWrites, hub, Option.map_some']
    rw [sendDoc_requests_to _ _ _ _ _ heb,
      sendDoc_sentRequests_other _ _ _ _ _ (by rw [heb]; exact fun h => hab h.symm)]
  · simp only [getRequests, findOne_sendWrites, hua, Option.map_some']
    rw [sendDoc_requests_other _ _ _ _ _ (by rw [hea]; exact hab),
      sendDoc_sentRequests_from _ _ _ _ _ hea]

/-- Witness for C1: alice sends to bob in a store of two fresh users. -/
theorem send_request_appends_one_pending_record_witness :
    (sendRequest [newUser "alice@x.com" "Alice", newUser "bob@x.com" "Bob"]
        "alice@x.com" "bob@x.com" "t0").1.success = true ∧
    getRequests (sendRequest [newUser "alice@x.com" "Alice", newUser "bob@x.com" "Bob"]
        "alice@x.com" "bob@x.com" "t0").2 "bob@x.com" =
      some ((newUser "bob@x.com" "Bob").requests ++
              [{ fromEmail := "alice@x.com", fromName := (newUser "alice@x.com" "Alice").firstName,
                 status := "pending", createdAt := "t0" }],
            (newUser "bob@x.com" "Bob").sentRequests) ∧
    getRequests (sendRequest [newUser "alice@x.com" "Alice", newUser "bob@x.com" "Bob"]
        "alice@x.com" "bob@x.com" "t0").2 "alice@x.com" =
      some ((newUser "alice@x.com" "Alice").requests,
            (newUser "alice@x.com" "Alice").sentRequests ++
              [{ toEmail := "bob@x.com", status := "pending" }]) :=
  send_request_appends_one_pending_record
    [newUser "alice@x.com" "Alice", newUser "bob@x.com" "Bob"] "alice@x.com" "bob@x.com" "t0"
    (newUser "alice@x.com" "Alice") (newUser "bob@x.com" "Bob")
    (by decide) (by decide) (by decide) (by decide) (by decide) (by decide) (by decide)

/-- C2: when a send from `a` to `b` has just succeeded, `POST /api/respond-request` with
`toEmail = b`, `fromEmail = a`, `action = "accept"` reports success, and afterwards the
connection set of `a` contains `b` and the connection set of `b` contains `a`. -/
theorem accept_after_send_connects_both (s : Store) (a b now : String)
    (h : (sendRequest s a b now).1.success = true) :
    (respondRequest (sendRequest s a b now).2 b a "accept").1.success = true ∧
    ∃ ua ub,
      findOne (respondRequest (sendRequest s a b now).2 b a "accept").2 a = some ua ∧
      findOne (respondRequest (sendRequest s a b now).2 b a "accept").2 b = some ub ∧
      b ∈ ua.connections ∧ a ∈ ub.connections := by
  obtain ⟨ua, ub, _, _, hua, hub, _, hs⟩ := sendRequest_success_inv h
  rw [hs, respondRequest_valid (Or.inl rfl)]
  refine ⟨rfl, respondDoc b a "accept" (sendDoc a b now ua.firstName ua),
    respondDoc b a "accept" (sendDoc a b now ua.firstName ub), ?_, ?_, ?_, ?_⟩
  · simp [findOne_respondWrites, findOne_sendWrites, hua]
  · simp [findOne_respondWrites, findOne_sendWrites, hub]
  · exact respondDoc_accept_connects_from _ _ _ (by simpa using findOne_email hua)
  · exact respondDoc_accept_connects_to _ _ _ (by simpa using findOne_email hub)

/-- Witness for C2: alice sends to bob, bob accepts. -/
theorem accept_after_send_connects_both_witness :
    (sendRequest [newUser "alice@x.com" "Alice", newUser "bob@x.com" "Bob"]
        "alice@x.com" "bob@x.com" "t0").1.success = true ∧
    ((respondRequest (sendRequest [newUser "alice@x.com" "Alice", newUser "bob@x.com" "Bob"]
        "alice@x.com" "bob@x.com" "t0").2 "bob@x.com" "alice@x.com" "accept").1.success = true ∧
    ∃ ua ub,
      findOne (respondRequest (sendRequest [newUser "alice@x.com" "Alice", newUser "bob@x.com" "Bob"]
        "alice@x.com" "bob@x.com" "t0").2 "bob@x.com" "alice@x.com" "accept").2 "alice@x.com"
          = some ua ∧
      findOne (respondRequest (sendRequest [newUser "alice@x.com" "Alice", newUser "bob@x.com" "Bob"]
        "alice@x.com" "bob@x.com" "t0").2 "bob@x.com" "alice@x.com" "accept").2 "bob@x.com"
          = some ub ∧
      "bob@x.com" ∈ ua.connections ∧ "alice@x.com" ∈ ub.connections) :=
  ⟨by decide, accept_after_send_connects_both
    [newUser "alice@x.com" "Alice", newUser "bob@x.com" "Bob"] "alice@x.com" "bob@x.com" "t0"
    (by decide)⟩

/-- C7: when a send from `a` to `b` has just succeeded, a second send from `a` to `b` reports
failure and leaves the whole collection unchanged (nothing is appended). -/
theorem second_send_is_refused (s : Store) (a b now now2 : String)
    (h : (sendRequest s a b now).1.success = true) :
    (sendRequest (sendRequest s a b now).2 a b now2).1.success = false ∧
    (sendRequest (sendRequest s a b now).2 a b now2).2 = (sendRequest s a b now).2 := by
  obtain ⟨ua, ub, ha, hb, hua, hub, _, hs⟩ := sendRequest_success_inv h
  have h1 : findOne (sendRequest s a b now).2 a = some (sendDoc a b now ua.firstName ua) := by
    rw [hs, findOne_sendWrites, hua]; rfl
  have h2 : findOne (sendRequest s a b now).2 b = some (sendDoc a b now ua.firstName ub) := by
    rw [hs, findOne_sendWrites, hub]; rfl
  have hp : (sendDoc a b now ua.firstName ub).requests.any
      (fun r => r.fromEmail == a && r.status == "pending") = true := by
    rw [sendDoc_requests_to _ _ _ _ _ (findOne_email hub)]
    simp
  rw [sendRequest_pending ha hb h1 h2 hp]
  exact ⟨rfl, rfl⟩

/-- Witness for C7: alice sends to bob twice. -/
theorem second_send_is_refused_witness :
    (sendRequest [newUser "alice@x.com" "Alice", newUser "bob@x.com" "Bob"]
        "alice@x.com" "bob@x.com" "t0").1.success = true ∧
    ((sendRequest (sendRequest [newUser "alice@x.com" "Alice", newUser "bob@x.com" "Bob"]
        "alice@x.com" "bob@x.com" "t0").2 "alice@x.com" "bob@x.com" "t1").1.success = false ∧
    (sendRequest (sendRequest [newUser "alice@x.com" "Alice", newUser "bob@x.com" "Bob"]
        "alice@x.com" "bob@x.com" "t0").2 "alice@x.com" "bob@x.com" "t1").2 =
      (sendRequest [newUser "alice@x.com" "Alice", newUser "bob@x.com" "Bob"]
        "alice@x.com" "bob@x.com" "t0").2) :=
  ⟨by decide, second_send_is_refused
    [newUser "alice@x.com" "Alice", newUser "bob@x.com" "Bob"] "alice@x.com" "bob@x.com" "t0" "t1"
    (by decide)⟩

/-- C3 (the code at the failing input): from a store holding only bob, with an empty connection
set, one respond call naming an unregistered sender puts that identifier into bob's connection
set; the handler never looks the two users up. -/
theorem respond_connects_unregistered_sender :
    run [newUser "bob@x.com" "Bob"] [Call.respond "bob@x.com" "ghost@x.com" "accept"] =
      [{ email := "bob@x.com", firstName := "Bob", requests := [], sentRequests := [],
         connections := ["ghost@x.com"] }] ∧
    findOne (run [newUser "bob@x.com" "Bob"] [Call.respond "bob@x.com" "ghost@x.com" "accept"])
      "ghost@x.com" = none := by
  decide

/-- C6 (the code at the failing input): after a successful send from alice to bob, a respond
call with action `reject` writes the action string itself, `reject`, into both records; the
connection sets stay empty. -/
theorem reject_writes_the_action_string :
    (respondRequest (sendRequest [newUser "alice@x.com" "Alice", newUser "bob@x.com" "Bob"]
        "alice@x.com" "bob@x.com" "t0").2 "bob@x.com" "alice@x.com" "reject") =
      (⟨true, none⟩,
       [{ email := "alice@x.com", firstName := "Alice", requests := [],
          sentRequests := [{ toEmail := "bob@x.com", status := "reject" }], connections := [] },
        { email := "bob@x.com", firstName := "Bob",
          requests := [{ fromEmail := "alice@x.com", fromName := "Alice", status := "reject",
                         createdAt := "t0" }],
          sentRequests := [], connections := [] }]) := by
  decide

/-- C8 (the code at the failing input): a registered user sending a request to themselves gets
success, and a record is appended to both of their lists. -/
theorem self_request_succeeds :
    sendRequest [newUser "alice@x.com" "Alice"] "alice@x.com" "alice@x.com" "t0" =
      (⟨true, none⟩,
       [{ email := "alice@x.com", firstName := "Alice",
          requests := [{ fromEmail := "alice@x.com", fromName := "Alice", status := "pending",
                         createdAt := "t0" }],
          sentRequests := [{ toEmail := "alice@x.com", status := "pending" }],
          connections := [] }]) := by
  decide

/-- C9 (the code at the failing input): alice and bob are connected (send, then accept); a new
send from alice to bob gets success and appends a second record to bob's `requests` and to
alice's `sentRequests`. -/
theorem send_between_connected_users_succeeds :
    run [newUser "alice@x.com" "Alice", newUser "bob@x.com" "Bob"]
        [Call.send "alice@x.com" "bob@x.com" "t0",
         Call.respond "bob@x.com" "alice@x.com" "accept"] =
      [{ email := "alice@x.com", firstName := "Alice", requests := [],
         sentRequests := [{ toEmail := "bob@x.com", status := "accept" }],
         connections := ["bob@x.com"] },
       { email := "bob@x.com", firstName := "Bob",
         requests := [{ fromEmail := "alice@x.com", fromName := "Alice", status := "accept",
                        createdAt := "t0" }],
         sentRequests := [], connections := ["alice@x.com"] }] ∧
    sendRequest (run [newUser "alice@x.com" "Alice", newUser "bob@x.com" "Bob"]
        [Call.send "alice@x.com" "bob@x.com" "t0",
         Call.respond "bob@x.com" "alice@x.com" "accept"]) "alice@x.com" "bob@x.com" "t1" =
      (⟨true, none⟩,
       [{ email := "alice@x.com", firstName := "Alice", requests := [],
          sentRequests := [{ toEmail := "bob@x.com", status := "accept" },
                           { toEmail := "bob@x.com", status := "pending" }],
          connections := ["bob@x.com"] },
        { email := "bob@x.com", firstName := "Bob",
          requests := [{ fromEmail := "alice@x.com", fromName := "Alice", status := "accept",
                         createdAt := "t0" },
                       { fromEmail := "alice@x.com", fromName := "Alice", status := "pending",
                         createdAt := "t1" }],
          sentRequests := [], connections := ["alice@x.com"] }]) := by
  decide

/-- C4: from a store in which every user's `requests` and `sentRequests` are empty, after any
finite sequence of send-request and respond-request calls no user document holds two `pending`
records in `sentRequests` with the same `toEmail`, nor two `pending` records in `requests` with
the same `fromEmail`. -/
theorem at_most_one_pending_per_ordered_pair (s0 : Store) (cs : List Call)
    (h0 : ∀ u ∈ s0, u.requests = [] ∧ u.sentRequests = []) :
    ∀ u ∈ run s0 cs, ∀ e : String,
      (u.sentRequests.filter (fun r => r.toEmail == e && r.status == "pending")).length ≤ 1 ∧
      (u.requests.filter (fun r => r.fromEmail == e && r.status == "pending")).length ≤ 1 := by
  have hinv := pendingInv_run s0 cs (pendingInv_of_empty s0 h0)
  intro u hu e
  rcases mem_findOne_or_empty _ hinv.1 u hu with hf | hempty
  · constructor
    · have h1 := (hinv.2 u.email e).2
      rw [← (hinv.2 u.email e).1] at h1
      unfold outgoingStatuses sentOf at h1
      rw [hf] at h1
      rw [pending_filter_length_sent]
      exact h1
    · have h1 := (hinv.2 e u.email).2
      unfold incomingStatuses reqsOf at h1
      rw [hf] at h1
      rw [pending_filter_length_requests]
      exact h1
  · simp [hempty.1, hempty.2]

/-- Witness for C4: two fresh users, then a send, a refused second send, a reject and a new
send; bob's document then holds two records from alice, one of them `pending`. -/
theorem at_most_one_pending_per_ordered_pair_witness :
    ({ email := "bob@x.com", firstName := "Bob",
       requests := [{ fromEmail := "alice@x.com", fromName := "Alice", status := "reject",
                      createdAt := "t0" },
                    { fromEmail := "alice@x.com", fromName := "Alice", status := "pending",
                      createdAt := "t2" }],
       sentRequests := [], connections := [] } : User) ∈
      run [newUser "alice@x.com" "Alice", newUser "bob@x.com" "Bob"]
        [Call.send "alice@x.com" "bob@x.com" "t0", Call.send "alice@x.com" "bob@x.com" "t1",
         Call.respond "bob@x.com" "alice@x.com" "reject",
         Call.send "alice@x.com" "bob@x.com" "t2"] ∧
    ((([] : List SentRequest).filter
        (fun r => r.toEmail == "alice@x.com" && r.status == "pending")).length ≤ 1 ∧
     (([{ fromEmail := "alice@x.com", fromName := "Alice", status := "reject",
          createdAt := "t0" },
        { fromEmail := "alice@x.com", fromName := "Alice", status := "pending",
          createdAt := "t2" }] : List IncomingRequest).filter
        (fun r => r.fromEmail == "alice@x.com" && r.status == "pending")).length ≤ 1) :=
  ⟨by decide,
   at_most_one_pending_per_ordered_pair
    [newUser "alice@x.com" "Alice", newUser "bob@x.com" "Bob"]
    [Call.send "alice@x.com" "bob@x.com" "t0", Call.send "alice@x.com" "bob@x.com" "t1",
     Call.respond "bob@x.com" "alice@x.com" "reject",
     Call.send "alice@x.com" "bob@x.com" "t2"]
    (by decide)
    { email := "bob@x.com", firstName := "Bob",
      requests := [{ fromEmail := "alice@x.com", fromName := "Alice", status := "reject",
                     createdAt := "t0" },
                   { fromEmail := "alice@x.com", fromName := "Alice", status := "pending",
                     createdAt := "t2" }],
      sentRequests := [], connections := [] }
    (by decide) "alice@x.com"⟩

/-- C5, counterexample: alice sends to bob, bob rejects, bob then accepts.  The one record of the
pair goes from `pending` to `reject` with the first respond call, and the later respond call
changes the status of that same record again, to `accept`, on both sides. -/
theorem responded_record_is_overwritten :
    recordAt (run [newUser "alice@x.com" "Alice", newUser "bob@x.com" "Bob"]
        [Call.send "alice@x.com" "bob@x.com" "t0"]) (Slot.incoming 1 0)
      = some ("alice@x.com", "pending") ∧
    recordAt (run [newUser "alice@x.com" "Alice", newUser "bob@x.com" "Bob"]
        [Call.send "alice@x.com" "bob@x.com" "t0",
         Call.respond "bob@x.com" "alice@x.com" "reject"]) (Slot.incoming 1 0)
      = some ("alice@x.com", "reject") ∧
    recordAt (run [newUser "alice@x.com" "Alice", newUser "bob@x.com" "Bob"]
        [Call.send "alice@x.com" "bob@x.com" "t0",
         Call.respond "bob@x.com" "alice@x.com" "reject",
         Call.respond "bob@x.com" "alice@x.com" "accept"]) (Slot.incoming 1 0)
      = some ("alice@x.com", "accept") ∧
    recordAt (run [newUser "alice@x.com" "Alice", newUser "bob@x.com" "Bob"]
        [Call.send "alice@x.com" "bob@x.com" "t0",
         Call.respond "bob@x.com" "alice@x.com" "reject"]) (Slot.outgoing 0 0)
      = some ("bob@x.com", "reject") ∧
    recordAt (run [newUser "alice@x.com" "Alice", newUser "bob@x.com" "Bob"]
        [Call.send "alice@x.com" "bob@x.com" "t0",
         Call.respond "bob@x.com" "alice@x.com" "reject",
         Call.respond "bob@x.com" "alice@x.com" "accept"]) (Slot.outgoing 0 0)
      = some ("bob@x.com", "accept") := by
  decide

/-- C5, amended: a request record is never deleted or moved, and once its status is not
`pending` it is never `pending` again, whatever send-request and respond-request calls follow.
Its status is not changed by any send-request call nor by a respond-request call for another
ordered pair: after a sequence of calls none of which is a respond-request for the record's own
pair, the status is the one it had.  Only a respond-request for the record's own pair may
overwrite it. -/
theorem responded_record_changes_only_by_respond_of_its_pair (s : Store) (cs : List Call)
    (k : Slot) (owner e st : String) (ho : ownerAt s k = some owner)
    (h : recordAt s k = some (e, st)) (hst : st ≠ "pending") :
    ∃ st2, recordAt (run s cs) k = some (e, st2) ∧ st2 ≠ "pending" ∧
      ((∀ c ∈ cs, answers owner e k c = false) → st2 = st) := by
  obtain ⟨st2, h2, hne⟩ := record_never_reopened s cs k e st h hst
  refine ⟨st2, h2, hne, fun hans => ?_⟩
  have h3 := (frame_run s cs k owner e st hans ho h).2
  rw [h2] at h3
  simpa using h3

/-- Witness for the amended C5: bob's rejected record from alice, then a second send by alice,
a send by bob and a respond call of alice to bob; none of them answers alice's request. -/
theorem responded_record_changes_only_by_respond_of_its_pair_witness :
    (∀ c ∈ [Call.send "alice@x.com" "bob@x.com" "t1",
            Call.send "bob@x.com" "alice@x.com" "t2",
            Call.respond "alice@x.com" "bob@x.com" "accept"],
        answers "bob@x.com" "alice@x.com" (Slot.incoming 1 0) c = false) ∧
    ∃ st2, recordAt (run
        [{ email := "alice@x.com", firstName := "Alice", requests := [],
           sentRequests := [{ toEmail := "bob@x.com", status := "reject" }], connections := [] },
         { email := "bob@x.com", firstName := "Bob",
           requests := [{ fromEmail := "alice@x.com", fromName := "Alice", status := "reject",
                          createdAt := "t0" }],
           sentRequests := [], connections := [] }]
        [Call.send "alice@x.com" "bob@x.com" "t1", Call.send "bob@x.com" "alice@x.com" "t2",
         Call.respond "alice@x.com" "bob@x.com" "accept"]) (Slot.incoming 1 0)
      = some ("alice@x.com", st2) ∧ st2 ≠ "pending" ∧
      ((∀ c ∈ [Call.send "alice@x.com" "bob@x.com" "t1",
               Call.send "bob@x.com" "alice@x.com" "t2",
               Call.respond "alice@x.com" "bob@x.com" "accept"],
          answers "bob@x.com" "alice@x.com" (Slot.incoming 1 0) c = false) → st2 = "reject") :=
  ⟨by decide,
   responded_record_changes_only_by_respond_of_its_pair _ _ (Slot.incoming 1 0)
    "bob@x.com" "alice@x.com" "reject" (by decide) (by decide) (by decide)⟩

/-- C10: on a store whose connection sets hold no duplicates, answering `accept` twice in a row
gives the same answer and the same store as answering once; in the result the connection set of
`a` (when `a` is registered) holds `b` exactly once and the connection set of `b` (when `b` is
registered) holds `a` exactly once. -/
theorem accept_twice_equals_accept_once (s : Store) (a b : String)
    (hnd : ∀ u ∈ s, u.connections.Nodup) :
    respondRequest (respondRequest s b a "accept").2 b a "accept" =
      respondRequest s b a "accept" ∧
    (∀ ua, findOne (respondRequest s b a "accept").2 a = some ua → ua.connections.count b = 1) ∧
    (∀ ub, findOne (respondRequest s b a "accept").2 b = some ub → ub.connections.count a = 1) := by
  have hv : respondRequest s b a "accept" = (⟨true, none⟩, respondWrites s b a "accept") :=
    respondRequest_valid (Or.inl rfl)
  rw [hv]
  refine ⟨?_, ?_, ?_⟩
  · rw [respondRequest_valid (Or.inl rfl), respondWrites_accept_idem]
  · intro ua hua
    rw [findOne_respondWrites] at hua
    cases h0 : findOne s a with
    | none => simp [h0] at hua
    | some u0 =>
      simp only [h0, Option.map_some', Option.some.injEq] at hua
      rw [← hua]
      exact List.count_eq_one_of_mem (respondDoc_accept_nodup b a u0 (hnd u0 (findOne_mem h0)))
        (respondDoc_accept_connects_from b a u0 (findOne_email h0))
  · intro ub hub
    rw [findOne_respondWrites] at hub
    cases h0 : findOne s b with
    | none => simp [h0] at hub
    | some u0 =>
      simp only [h0, Option.map_some', Option.some.injEq] at hub
      rw [← hub]
      exact List.count_eq_one_of_mem (respondDoc_accept_nodup b a u0 (hnd u0 (findOne_mem h0)))
        (respondDoc_accept_connects_to b a u0 (findOne_email h0))

/-- Witness for C10: bob accepts alice's pending request twice. -/
theorem accept_twice_equals_accept_once_witness :
    respondRequest (respondRequest
        [{ email := "alice@x.com", firstName := "Alice", requests := [],
           sentRequests := [{ toEmail := "bob@x.com", status := "pending" }], connections := [] },
         { email := "bob@x.com", firstName := "Bob",
           requests := [{ fromEmail := "alice@x.com", fromName := "Alice", status := "pending",
                          createdAt := "t0" }],
           sentRequests := [], connections := ["carol@x.com"] }]
        "bob@x.com" "alice@x.com" "accept").2 "bob@x.com" "alice@x.com" "accept" =
      respondRequest
        [{ email := "alice@x.com", firstName := "Alice", requests := [],
           sentRequests := [{ toEmail := "bob@x.com", status := "pending" }], connections := [] },
         { email := "bob@x.com", firstName := "Bob",
           requests := [{ fromEmail := "alice@x.com", fromName := "Alice", status := "pending",
                          createdAt := "t0" }],
           sentRequests := [], connections := ["carol@x.com"] }]
        "bob@x.com" "alice@x.com" "accept" ∧
    (∀ ua, findOne (respondRequest
        [{ email := "alice@x.com", firstName := "Alice", requests := [],
           sentRequests := [{ toEmail := "bob@x.com", status := "pending" }], connections := [] },
         { email := "bob@x.com", firstName := "Bob",
           requests := [{ fromEmail := "alice@x.com", fromName := "Alice", status := "pending",
                          createdAt := "t0" }],
           sentRequests := [], connections := ["carol@x.com"] }]
        "bob@x.com" "alice@x.com" "accept").2 "alice@x.com" = some ua →
      ua.connections.count "bob@x.com" = 1) ∧
    (∀ ub, findOne (respondRequest
        [{ email := "alice@x.com", firstName := "Alice", requests := [],
           sentRequests := [{ toEmail := "bob@x.com", status := "pending" }], connections := [] },
         { email := "bob@x.com", firstName := "Bob",
           requests := [{ fromEmail := "alice@x.com", fromName := "Alice", status := "pending",
                          createdAt := "t0" }],
           sentRequests := [], connections := ["carol@x.com"] }]
        "bob@x.com" "alice@x.com" "accept").2 "bob@x.com" = some ub →
      ub.connections.count "alice@x.com" = 1) :=
  accept_twice_equals_accept_once _ "alice@x.com" "bob@x.com" (by decide)

/-- C11, counterexample: alice and bob are registered and hold no request record at all; a
respond call with `toEmail` bob, `fromEmail` alice and action `accept` reports success and puts
each of them into the other's connection set. -/
theorem accept_without_request_connects :
    findOne [newUser "alice@x.com" "Alice", newUser "bob@x.com" "Bob"] "alice@x.com" =
      some (newUser "alice@x.com" "Alice") ∧
    findOne [newUser "alice@x.com" "Alice", newUser "bob@x.com" "Bob"] "bob@x.com" =
      some (newUser "bob@x.com" "Bob") ∧
    (newUser "bob@x.com" "Bob").requests = [] ∧
    (newUser "alice@x.com" "Alice").sentRequests = [] ∧
    respondRequest [newUser "alice@x.com" "Alice", newUser "bob@x.com" "Bob"]
        "bob@x.com" "alice@x.com" "accept" =
      (⟨true, none⟩,
       [{ email := "alice@x.com", firstName := "Alice", requests := [], sentRequests := [],
          connections := ["bob@x.com"] },
        { email := "bob@x.com", firstName := "Bob", requests := [], sentRequests := [],
          connections := ["alice@x.com"] }]) := by
  decide

/-- C11, amended: the connection sets are written only by a respond-request call with action
`accept`: a send-request call, and a respond-request call with any other action, leave the
connection set of every user document unchanged. -/
theorem connections_change_only_on_accept (s : Store) (c : Call) (h : isAccept c = false) :
    (step s c).map User.connections = s.map User.connections := by
  cases c with
  | send f t now => exact map_connections_sendRequest s f t now
  | respond t f a =>
    exact map_connections_respondRequest s t f a (by simpa [isAccept] using h)

/-- Witness for the amended C11: bob rejects alice's pending request. -/
theorem connections_change_only_on_accept_witness :
    (step
        [{ email := "alice@x.com", firstName := "Alice", requests := [],
           sentRequests := [{ toEmail := "bob@x.com", status := "pending" }],
           connections := ["carol@x.com"] },
         { email := "bob@x.com", firstName := "Bob",
           requests := [{ fromEmail := "alice@x.com", fromName := "Alice", status := "pending",
                          createdAt := "t0" }],
           sentRequests := [], connections := [] }]
        (Call.respond "bob@x.com" "alice@x.com" "reject")).map User.connections =
      ([{ email := "alice@x.com", firstName := "Alice", requests := [],
           sentRequests := [{ toEmail := "bob@x.com", status := "pending" }],
           connections := ["carol@x.com"] },
         { email := "bob@x.com", firstName := "Bob",
           requests := [{ fromEmail := "alice@x.com", fromName := "Alice", status := "pending",
                          createdAt := "t0" }],
           sentRequests := [], connections := [] }] : Store).map User.connections :=
  connections_change_only_on_accept _ (Call.respond "bob@x.com" "alice@x.com" "reject")
    (by decide)

/-- C12, counterexample: bob holds an answered record from alice followed by a `pending` one
(and alice the matching outgoing records).  A respond call with action `accept` rewrites the
earlier, already answered record on both sides and leaves the `pending` records `pending`. -/
theorem respond_rewrites_the_answered_record :
    run [newUser "alice@x.com" "Alice", newUser "bob@x.com" "Bob"]
        [Call.send "alice@x.com" "bob@x.com" "t0",
         Call.respond "bob@x.com" "alice@x.com" "reject",
         Call.send "alice@x.com" "bob@x.com" "t2"] = resentStore ∧
    respondRequest resentStore "bob@x.com" "alice@x.com" "accept" =
      (⟨true, none⟩,
       [{ email := "alice@x.com", firstName := "Alice", requests := [],
          sentRequests := [{ toEmail := "bob@x.com", status := "accept" },
                           { toEmail := "bob@x.com", status := "pending" }],
          connections := ["bob@x.com"] },
        { email := "bob@x.com", firstName := "Bob",
          requests := [{ fromEmail := "alice@x.com", fromName := "Alice", status := "accept",
                         createdAt := "t0" },
                       { fromEmail := "alice@x.com", fromName := "Alice", status := "pending",
                         createdAt := "t2" }],
          sentRequests := [], connections := ["alice@x.com"] }]) := by
  decide

/-- C12, amended: when bob's `requests` holds a `pending` record from `a`, a respond call with
`toEmail = b`, `fromEmail = a` and action `accept` or `reject` reports success and rewrites the
status of the first record with `fromEmail = a` in `b`'s `requests`, whatever its status, and of
the first record with `toEmail = b` in `a`'s `sentRequests` when there is one; the new status is
not `pending`, and every other request record of every user is left as it was. -/
theorem respond_rewrites_first_record_of_counterparty (s : Store) (a b action : String)
    (ub : User) (hub : findOne s b = some ub)
    (hpend : ub.requests.any (fun r => r.fromEmail == a && r.status == "pending") = true)
    (hact : action = "accept" ∨ action = "reject") :
    (respondRequest s b a action).1.success = true ∧
    ∃ st : String, st ≠ "pending" ∧
      (∃ (i : Nat) (r : IncomingRequest), ub.requests[i]? = some r ∧ r.fromEmail = a ∧
        (∀ (j : Nat) (r2 : IncomingRequest), j < i → ub.requests[j]? = some r2 →
          r2.fromEmail ≠ a) ∧
        reqsOf (respondRequest s b a action).2 b = ub.requests.set i { r with status := st }) ∧
      (∀ e, e ≠ b → reqsOf (respondRequest s b a action).2 e = reqsOf s e) ∧
      (((∀ t ∈ sentOf s a, t.toEmail ≠ b) ∧
          sentOf (respondRequest s b a action).2 a = sentOf s a) ∨
        ∃ (k : Nat) (t : SentRequest), (sentOf s a)[k]? = some t ∧ t.toEmail = b ∧
          (∀ (j : Nat) (t2 : SentRequest), j < k → (sentOf s a)[j]? = some t2 →
            t2.toEmail ≠ b) ∧
          sentOf (respondRequest s b a action).2 a =
            (sentOf s a).set k { t with status := st }) ∧
      (∀ e, e ≠ a → sentOf (respondRequest s b a action).2 e = sentOf s e) := by
  have hv : respondRequest s b a action = (⟨true, none⟩, respondWrites s b a action) :=
    respondRequest_valid hact
  rw [hv]
  refine ⟨rfl, action, ?_, ?_, ?_, ?_, ?_⟩
  · rcases hact with h | h <;> rw [h] <;> decide
  · have hex : ∃ r ∈ ub.requests, r.fromEmail = a := by
      rw [List.any_eq_true] at hpend
      obtain ⟨r, hr, hra⟩ := hpend
      exact ⟨r, hr, by simp at hra; exact hra.1⟩
    obtain ⟨i, r, hi, hr, hfirst⟩ := exists_first_request a ub.requests hex
    refine ⟨i, r, hi, hr, hfirst, ?_⟩
    have hreq : reqsOf s b = ub.requests := by unfold reqsOf; rw [hub]
    rw [reqsOf_respondWrites, if_pos rfl, hreq]
    exact setRequestStatus_eq_set a action ub.requests i r hi hr hfirst
  · intro e he
    rw [reqsOf_respondWrites, if_neg he]
  · by_cases hex : ∃ t ∈ sentOf s a, t.toEmail = b
    · right
      obtain ⟨k, t, hk, ht, hfirst⟩ := exists_first_sent b (sentOf s a) hex
      refine ⟨k, t, hk, ht, hfirst, ?_⟩
      rw [sentOf_respondWrites, if_pos rfl]
      exact setSentStatus_eq_set b action (sentOf s a) k t hk ht hfirst
    · left
      have hall : ∀ t ∈ sentOf s a, t.toEmail ≠ b := fun t ht htb => hex ⟨t, ht, htb⟩
      refine ⟨hall, ?_⟩
      rw [sentOf_respondWrites, if_pos rfl]
      apply setSentStatus_eq_self_of_not_any
      rw [List.any_eq_false]
      intro t ht
      simpa using hall t ht
  · intro e he
    rw [sentOf_respondWrites, if_neg he]

/-- Witness for the amended C12: bob accepts on the store with an answered and a `pending`
record from alice. -/
theorem respond_rewrites_first_record_of_counterparty_witness :
    (respondRequest resentStore "bob@x.com" "alice@x.com" "accept").1.success = true ∧
    ∃ st : String, st ≠ "pending" ∧
      (∃ (i : Nat) (r : IncomingRequest), resentBob.requests[i]? = some r ∧
        r.fromEmail = "alice@x.com" ∧
        (∀ (j : Nat) (r2 : IncomingRequest), j < i → resentBob.requests[j]? = some r2 →
          r2.fromEmail ≠ "alice@x.com") ∧
        reqsOf (respondRequest resentStore "bob@x.com" "alice@x.com" "accept").2 "bob@x.com" =
          resentBob.requests.set i { r with status := st }) ∧
      (∀ e, e ≠ "bob@x.com" →
        reqsOf (respondRequest resentStore "bob@x.com" "alice@x.com" "accept").2 e =
          reqsOf resentStore e) ∧
      (((∀ t ∈ sentOf resentStore "alice@x.com", t.toEmail ≠ "bob@x.com") ∧
          sentOf (respondRequest resentStore "bob@x.com" "alice@x.com" "accept").2
            "alice@x.com" = sentOf resentStore "alice@x.com") ∨
        ∃ (k : Nat) (t : SentRequest), (sentOf resentStore "alice@x.com")[k]? = some t ∧
          t.toEmail = "bob@x.com" ∧
          (∀ (j : Nat) (t2 : SentRequest), j < k →
            (sentOf resentStore "alice@x.com")[j]? = some t2 → t2.toEmail ≠ "bob@x.com") ∧
          sentOf (respondRequest resentStore "bob@x.com" "alice@x.com" "accept").2
            "alice@x.com" = (sentOf resentStore "alice@x.com").set k { t with status := st }) ∧
      (∀ e, e ≠ "alice@x.com" →
        sentOf (respondRequest resentStore "bob@x.com" "alice@x.com" "accept").2 e =
          sentOf resentStore e) :=
  respond_rewrites_first_record_of_counterparty resentStore "alice@x.com" "bob@x.com" "accept"
    resentBob (by decide) (by decide) (by decide)

/-- C13: `verhoeffCheck` detects every single-digit error: when `s` and `s2` both pass the
twelve-digit format test of signup, `verhoeffCheck(s)` is `true`, and `s2` differs from `s` at
position `i` and nowhere else, then `verhoeffCheck(s2)` returns `false`. -/
theorem verhoeffCheck_detects_single_digit_error (s s2 : String) (i : Nat)
    (hs : isAadhaarFormat s = true) (hs2 : isAadhaarFormat s2 = true)
    (hv : verhoeffCheck s = some true)
    (hne : s.toList[i]? ≠ s2.toList[i]?)
    (hsame : ∀ j, j < 12 → j ≠ i → s.toList[j]? = s2.toList[j]?) :
    verhoeffCheck s2 = some false := by
  simp only [isAadhaarFormat, Bool.and_eq_true, beq_iff_eq, List.all_eq_true] at hs hs2
  have hsame2 : ∀ j, j ≠ i → s.toList[j]? = s2.toList[j]? := by
    intro j hj
    by_cases hlt : j < 12
    · exact hsame j hlt hj
    · rw [List.getElem?_eq_none (by omega), List.getElem?_eq_none (by omega)]
  obtain ⟨pre, x, y, post, h1, h2, hxy⟩ :=
    split_at_difference s.toList s2.toList i (by rw [hs.1, hs2.1]) hne hsame2
  have hd1 : ∀ ch ∈ pre ++ x :: post, ch.isDigit = true := by rw [← h1]; exact hs.2
  have hd2 : ∀ ch ∈ pre ++ y :: post, ch.isDigit = true := by rw [← h2]; exact hs2.2
  have hdiff := loopNat_single_difference pre post x y
    (fun ch hch => hd1 ch (List.mem_append_left _ hch))
    (fun ch hch => hd1 ch (List.mem_append_right _ (List.mem_cons_of_mem x hch)))
    (hd1 x (List.mem_append_right _ (List.mem_cons_self x post)))
    (hd2 y (List.mem_append_right _ (List.mem_cons_self y post))) hxy
  rw [verhoeffCheck_digits s hs.2, h1] at hv
  rw [verhoeffCheck_digits s2 hs2.2, h2]
  simp only [Option.some.injEq, beq_iff_eq] at hv
  rw [hv] at hdiff
  simp only [Option.some.injEq, beq_eq_false_iff_ne, ne_eq]
  exact fun h => hdiff h.symm

/-- Witness for C13: the valid number 234123412346 with its tenth digit changed from 3 to 9. -/
theorem verhoeffCheck_detects_single_digit_error_witness :
    verhoeffCheck "234123412346" = some true ∧ verhoeffCheck "234123412946" = some false :=
  ⟨by decide,
   verhoeffCheck_detects_single_digit_error "234123412346" "234123412946" 9
    (by decide) (by decide) (by decide) (by decide) (by decide)⟩

end TravelBuddy
